import Mathlib

/-!
# corsproxy: a shallow embedding of `main.go`

The proxy is one handler, `handleCORS`, plus package-level variables that are
initialised before `main` runs and partly overwritten by `main` from the
command line.  The embedding keeps that shape:

* `Globals` is the set of package-level variables; `packageInit` is their
  state after package initialisation and `main` the state the handler runs
  with once the flags are parsed.
* `http.Header` is an association list from header name to its values; the
  order of the list stands for the (unspecified) iteration order of the map.
* The Go standard library and the network are the environment `Env`:
  `url.Parse`, `(*URL).String`, one round trip of the transport and the
  construction of a redirect hop.  General theorems quantify over every
  environment; concrete evaluations use `goEnv`.
* `handleCORS` returns the response written to the caller together with the
  list of outbound requests that were sent, or the panic of `w.WriteHeader`
  when the upstream status is one it does not accept.
-/

set_option autoImplicit false

namespace Corsproxy

/-! ## Strings -/

/-- Go `strings.TrimLeft(s, cutset)`: drop every leading character that occurs in `cutset`. -/
def TrimLeft (s cutset : String) : String :=
  ⟨s.data.dropWhile (fun c => cutset.data.contains c)⟩

/-- Go `strings.Join(elems, sep)`. -/
def Join (elems : List String) (sep : String) : String :=
  match elems with
  | [] => ""
  | e :: rest => rest.foldl (fun acc x => acc ++ sep ++ x) e

/-! ## `http.Header` -/

/-- Token bytes of a header field name (`validHeaderFieldByte` of `net/textproto`). -/
def validHeaderFieldByte (c : Char) : Bool :=
  c.isAlphanum || "!#$%&*+-.^_|~".data.contains c || c.toNat == 39 || c.toNat == 96

/-- The canonicalisation loop: upper case at the start and after every dash,
lower case elsewhere. -/
def canonLoop : Bool → List Char → List Char
  | _, [] => []
  | upper, c :: cs =>
    let d := if upper && c.isLower then c.toUpper
             else if !upper && c.isUpper then c.toLower
             else c
    d :: canonLoop (d == '-') cs

/-- Go `textproto.CanonicalMIMEHeaderKey`: a name that holds a byte which is
not a token byte is returned unchanged. -/
def CanonicalMIMEHeaderKey (s : String) : String :=
  if s.data.all validHeaderFieldByte then ⟨canonLoop true s.data⟩ else s

/-- Go `http.Header`, a `map[string][]string`. -/
abbrev Header := List (String × List String)

namespace Header

/-- Map read `h[k]`. -/
def find (h : Header) (k : String) : Option (List String) :=
  match h with
  | [] => none
  | (k', vs) :: t => if k' = k then some vs else find t k

/-- Map write `h[k] = vs`. -/
def put (h : Header) (k : String) (vs : List String) : Header :=
  match h with
  | [] => [(k, vs)]
  | (k', vs') :: t => if k' = k then (k, vs) :: t else (k', vs') :: put t k vs

/-- The keys visited by `for key := range h`. -/
def keys (h : Header) : List String := h.map Prod.fst

/-- Go `Header.Get`: the first value stored under the canonical form of `key`, or `""`. -/
def Get (h : Header) (key : String) : String :=
  match h.find (CanonicalMIMEHeaderKey key) with
  | some (v :: _) => v
  | _ => ""

/-- Go `Header.Set`: the canonical form of `key` gets the single value `value`. -/
def Set (h : Header) (key value : String) : Header :=
  h.put (CanonicalMIMEHeaderKey key) [value]

end Header

/-! ## Package-level variables, package initialisation and `main` -/

/-- Go `time.Second`, in nanoseconds. -/
def Second : Int := 1000000000

/-- Wrap-around of a 64-bit signed integer. -/
def wrapInt64 (x : Int) : Int := (x + 2 ^ 63) % 2 ^ 64 - 2 ^ 63

/-- The fields of `http.Client` that `main.go` sets apart from the
`CheckRedirect` closure, which is `CheckRedirect` below. -/
structure Client where
  /-- A `time.Duration`, in nanoseconds. -/
  Timeout : Int
  deriving DecidableEq, Repr

/-- The package-level variables of `main.go`. -/
structure Globals where
  maxRedirects : Int
  timeout : Int
  listenAddr : String
  headerBlacklist : List String
  helpText : String
  client : Client
  deriving DecidableEq, Repr

def hopHeaders : List String :=
  ["Connection", "Keep-Alive", "Public", "Proxy-Authenticate", "Transfer", "Upgrade"]

/-- The help document, `fmt.Sprintf` of the template with the two `%d` verbs. -/
def helpTextOf (timeout maxRedirects : Int) : String :=
  "NAME\n" ++
  "    corsproxy - adds cors headers to requests\n" ++
  "\n" ++
  "SYNOPSIS\n" ++
  "    /        - Shows this message\n" ++
  "    /\x7burl\x7d   - Requests \x7burl\x7d\n" ++
  "\n" ++
  "DESCRIPTION\n" ++
  "    corsproxy allows requests to be made from any origin by adding cors\n" ++
  "    headers. It supports all HTTP methods and headers.\n" ++
  "\n" ++
  "    The following additional headers are added to the proxied request:\n" ++
  "\n" ++
  "        Access-Control-Allow-Origin   - Allows access from all origins\n" ++
  "        Access-Control-Expose-Headers - Allows the browser to access\n" ++
  "                                        all headers.\n" ++
  "        X-Request-URL                 - The requested URL\n" ++
  "        X-Final-URL                   - The final URL after redirects\n" ++
  "\n" ++
  "    The timeout for requests is " ++ toString timeout ++ " seconds, and corsproxy will follow up\n" ++
  "    to " ++ toString maxRedirects ++ " redirects.\n" ++
  "\n" ++
  "    To prevent abuse, the Origin or X-Requested-With headers must be set.\n" ++
  "    These headers are set automatically when using XHR or fetch.\n" ++
  "\n" ++
  "ABOUT\n" ++
  "    Source Code - https://github.com/pgaskin/corsproxy\n"

/-- The package-level variables after package initialisation, before `main`
runs: `helpText` and `client` are computed here, from the initial values of
`timeout` and `maxRedirects`. -/
def packageInit : Globals :=
  let maxRedirects : Int := 10
  let timeout : Int := 15
  { maxRedirects := maxRedirects
    timeout := timeout
    listenAddr := ":8000"
    headerBlacklist := []
    helpText := helpTextOf timeout maxRedirects
    client := { Timeout := wrapInt64 (Second * timeout) } }

/-- The command line as `pflag.Parse` reads it: a flag that is absent leaves
its variable alone. -/
structure Flags where
  headerBlacklist : Option (List String) := none
  addr : Option String := none
  timeout : Option Int := none
  maxRedirects : Option Int := none
  help : Bool := false
  /-- The count `pflag.NArg()` of positional arguments. -/
  nArg : Nat := 0
  deriving DecidableEq, Repr

/-- The flag definitions and `pflag.Parse()`: each flag writes through the
pointer to its package variable, and to nothing else. -/
def parseFlags (f : Flags) (g : Globals) : Globals :=
  { g with
    headerBlacklist := f.headerBlacklist.getD g.headerBlacklist
    listenAddr := f.addr.getD g.listenAddr
    timeout := f.timeout.getD g.timeout
    maxRedirects := f.maxRedirects.getD g.maxRedirects }

/-- Go `main`, up to the call of `http.ListenAndServe`: `none` is `os.Exit(1)`
after the usage text, `some g` the package variables the handler is served
with. -/
def main (f : Flags) : Option Globals :=
  let g := parseFlags f packageInit
  if f.help || f.nArg != 0 then none else some g

/-! ## Requests, responses and the environment -/

/-- Go `url.URL`. -/
structure URL where
  Scheme : String := ""
  /-- The field `Opaque` of `url.URL`. -/
  OpaquePart : String := ""
  /-- The user information, `none` for a nil `*Userinfo`. -/
  User : Option String := none
  Host : String := ""
  Path : String := ""
  RawPath : String := ""
  OmitHost : Bool := false
  ForceQuery : Bool := false
  RawQuery : String := ""
  Fragment : String := ""
  deriving DecidableEq, Repr

/-- The inbound `*http.Request`, as far as the handler reads it. -/
structure Request where
  Method : String
  /-- The field `req.URL.Path`. -/
  Path : String
  /-- The field `req.URL.RawQuery`. -/
  RawQuery : String := ""
  Header : Header := []
  Body : String := ""
  deriving DecidableEq, Repr

/-- An outbound `*http.Request`. -/
structure OutRequest where
  Method : String
  URL : URL
  Header : Header := []
  Body : String := ""
  deriving DecidableEq, Repr

/-- An upstream `*http.Response`. -/
structure Response where
  StatusCode : Nat
  Header : Header := []
  Body : String := ""
  deriving DecidableEq, Repr

/-- What one round trip of the transport gives back. -/
inductive Reply where
  /-- The transport failed: `c.send` returned an error. -/
  | failure (err : String)
  /-- A response came back; `shouldRedirect` is the verdict of the client
  (`redirectBehavior`, and a `Location` that is not empty). -/
  | response (resp : Response) (shouldRedirect : Bool)
  deriving DecidableEq, Repr

/-- The standard library and the network. -/
structure Env where
  /-- Go `url.Parse`. -/
  parse : String → Except String URL
  /-- Go `(*URL).String`. -/
  urlString : URL → String
  /-- Go `validMethod` of `net/http`. -/
  validMethod : String → Bool
  /-- One round trip, given the requests sent before this one. -/
  send : List OutRequest → OutRequest → Reply
  /-- The request for the next hop, built by the client from the requests
  sent so far and the redirect response; an error when `Location` does not
  parse. -/
  nextHop : List OutRequest → Response → Except String OutRequest
  /-- The text of the `*url.Error` the client wraps an error in, from the
  method of the first request, the URL the error is about and the error. -/
  uerr : String → String → String → String

/-- The response the handler wrote, as its calls on `w` give it, and the
outbound requests that were sent. -/
structure Result where
  /-- The argument of the call `w.WriteHeader`. -/
  StatusCode : Nat
  /-- The map `w.Header()` when `w.WriteHeader` is called. -/
  Header : Header := []
  /-- The bytes the handler hands to `w` after the status. -/
  Body : String := ""
  calls : List OutRequest := []
  deriving DecidableEq, Repr

/-- What becomes of one call of the handler. -/
inductive Outcome where
  /-- The handler wrote a response and returned. -/
  | response (r : Result)
  /-- The handler panicked in `w.WriteHeader`: no status and no body were
  written.  `calls` are the outbound requests sent before. -/
  | panic (msg : String) (calls : List OutRequest)
  deriving DecidableEq, Repr

/-- The outbound requests sent during the call. -/
def Outcome.calls : Outcome → List OutRequest
  | .response r => r.calls
  | .panic _ calls => calls

/-! ## The client -/

/-- The `CheckRedirect` closure of `client`: it reads the package variable
`maxRedirects` when it is called. -/
def CheckRedirect (g : Globals) (_req : OutRequest) (via : List OutRequest) : Option String :=
  if (via.length : Int) ≥ g.maxRedirects then some "stopped after 10 redirects" else none

/-- The redirect loop of Go `(*Client).do`, one round trip per unit of fuel.
`reqs` are the requests sent so far and `req` the one to send now; the
result is the final response with the request that fetched it, or the error,
and the requests sent.  `none` means the fuel ran out. -/
def Client.doLoop (env : Env) (checkRedirect : OutRequest → List OutRequest → Option String) :
    Nat → List OutRequest → OutRequest →
      Option (Except String (Response × OutRequest) × List OutRequest)
  | 0, _, _ => none
  | fuel + 1, reqs, req =>
    let sent := reqs ++ [req]
    let method := (sent.head?.getD req).Method
    match env.send reqs req with
    | .failure err => some (.error (env.uerr method (env.urlString req.URL) err), sent)
    | .response resp false => some (.ok (resp, req), sent)
    | .response resp true =>
      match env.nextHop sent resp with
      | .error err => some (.error (env.uerr method (env.urlString req.URL) err), sent)
      | .ok next =>
        match checkRedirect next sent with
        | some err => some (.error (env.uerr method (resp.Header.Get "Location") err), sent)
        | none => Client.doLoop env checkRedirect fuel sent next

/-- Go `client.Do(nreq)` for the shared client.  The loop of the library has
no bound of its own; `CheckRedirect` stops it, and `Client.Do_isSome` shows
that this much fuel is never used up. -/
def Client.Do (g : Globals) (env : Env) (nreq : OutRequest) :
    Option (Except String (Response × OutRequest) × List OutRequest) :=
  Client.doLoop env (CheckRedirect g) (g.maxRedirects.toNat + 1) [] nreq

/-! ## The handler -/

/-- Lines 94 to 103: the target, or `none` for the help branch. -/
def target (req : Request) : Option String :=
  let p := TrimLeft req.Path "/"
  if p = "" then none
  else if req.RawQuery ≠ "" then some (p ++ "?" ++ req.RawQuery)
  else some p

/-- Go `removeEmptyPort`: a host that ends in a colon loses it. -/
def removeEmptyPort (host : String) : String :=
  if host.data.getLast? = some ':' then ⟨host.data.dropLast⟩ else host

/-- Go `http.NewRequest(method, url, body)`. -/
def NewRequest (env : Env) (method url body : String) : Except String OutRequest :=
  let method := if method = "" then "GET" else method
  if !env.validMethod method then .error ("net/http: invalid method \"" ++ method ++ "\"")
  else
    match env.parse url with
    | .error err => .error err
    | .ok u =>
      .ok { Method := method, URL := { u with Host := removeEmptyPort u.Host }
            Header := [], Body := body }

/-- The inner loop over `append(hopHeaders, headerBlacklist...)`: its
`continue` belongs to this loop, so a match moves on to the next `ignore`
exactly as a mismatch does, and the loop hands nothing to the code after it. -/
def ignoreLoop (key : String) : List String → Unit
  | [] => ()
  | ignore :: rest => if key = ignore then ignoreLoop key rest else ignoreLoop key rest

/-- Lines 129 to 136: the loop that fills the header of the outbound request. -/
def copyRequestHeader (g : Globals) (src : Header) (dst : Header) : Header :=
  src.keys.foldl
    (fun dst key =>
      let _ := ignoreLoop key (hopHeaders ++ g.headerBlacklist)
      dst.Set key (src.Get key))
    dst

/-- Lines 146 to 155: the loop that fills the header of the caller's response
and the list `expose`. -/
def copyResponseHeader (g : Globals) (src : Header) (dst : Header) (expose : List String) :
    Header × List String :=
  src.keys.foldl
    (fun st key =>
      let _ := ignoreLoop key (hopHeaders ++ g.headerBlacklist)
      (st.1.Set key (src.Get key), st.2 ++ [key]))
    (dst, expose)

/-- The 500 response of the three error branches. -/
def errorResult (err : String) (calls : List OutRequest) : Result :=
  { StatusCode := 500, Header := [], Body := "Error: " ++ err, calls := calls }

/-- Lines 94 to 136: an early response, or the resolved target with the
outbound request as it is handed to `client.Do`. -/
def outbound (g : Globals) (env : Env) (req : Request) : Except Result (URL × OutRequest) :=
  match target req with
  | none => .error { StatusCode := 200, Header := [], Body := g.helpText, calls := [] }
  | some p =>
    if req.Header.Get "Origin" = "" ∧ req.Header.Get "X-Requested-With" = "" then
      .error { StatusCode := 400, Header := []
               Body := "Error: Origin or X-Requested-With must be specified.", calls := [] }
    else
      match env.parse p with
      | .error err => .error (errorResult err [])
      | .ok u =>
        let u := if u.Scheme = "" then { u with Scheme := "http" } else u
        match NewRequest env req.Method (env.urlString u) req.Body with
        | .error err => .error (errorResult err [])
        | .ok nreq =>
          .ok (u, { nreq with Header := copyRequestHeader g req.Header nreq.Header })

/-- Lines 146 to 160: the map `w.Header()` after the copy loop and the four
`Set` calls. -/
def relayHeader (g : Globals) (env : Env) (u : URL) (resp : Response) (final : OutRequest) :
    Header :=
  let (h, expose) := copyResponseHeader g resp.Header [] ["X-Request-URL"]
  let h := h.Set "Access-Control-Allow-Origin" "*"
  let h := h.Set "Access-Control-Expose-Headers" (Join expose ",")
  let h := h.Set "X-Request-URL" (env.urlString u)
  let h := h.Set "X-Final-URL" (env.urlString final.URL)
  h

/-- Go `checkWriteHeaderCode` of `net/http`: `w.WriteHeader(code)` panics for
a code below 100 or above 999. -/
def invalidWriteHeaderCode (code : Nat) : Bool := decide (code < 100) || decide (code > 999)

/-- Lines 146 to 164: the response relayed to the caller.  The upstream status
goes to `w.WriteHeader` as it is (line 162), which panics for a code it does
not accept; the body is copied after that call only. -/
def relay (g : Globals) (env : Env) (u : URL) (resp : Response) (final : OutRequest)
    (calls : List OutRequest) : Outcome :=
  let h := relayHeader g env u resp final
  if invalidWriteHeaderCode resp.StatusCode = true then
    .panic ("invalid WriteHeader code " ++ toString resp.StatusCode) calls
  else
    .response { StatusCode := resp.StatusCode, Header := h, Body := resp.Body, calls := calls }

/-- Go `handleCORS`.  `none` only if the redirect loop ran out of fuel, which
`handleCORS_isSome` excludes. -/
def handleCORS (g : Globals) (env : Env) (req : Request) : Option Outcome :=
  match outbound g env req with
  | .error r => some (.response r)
  | .ok (u, nreq) =>
    match Client.Do g env nreq with
    | none => none
    | some (.error err, calls) => some (.response (errorResult err calls))
    | some (.ok (resp, final), calls) => some (relay g env u resp final calls)

/-! ## A model of the standard library

`net/url` and the redirect bookkeeping of `net/http`, for URLs written in
letters, digits and the punctuation `-._~/:?#=&+` only: no percent escapes,
no user information and no bracketed address, so that escaping and
unescaping leave every component as it stands. -/

namespace Go

/-- Go `strings.Cut(s, sep)` for a one-character separator. -/
def cut (sep : Char) : List Char → List Char × List Char × Bool
  | [] => ([], [], false)
  | c :: cs =>
    if c = sep then ([], cs, true)
    else
      let (a, b, found) := cut sep cs
      (c :: a, b, found)

/-- The loop of `getScheme` of `net/url`; `seen` are the characters before the
current one. -/
def getSchemeLoop (rawURL : List Char) : List Char → List Char →
    Except String (List Char × List Char)
  | _, [] => .ok ([], rawURL)
  | seen, c :: cs =>
    if c.isAlpha then getSchemeLoop rawURL (seen ++ [c]) cs
    else if c.isDigit || c == '+' || c == '-' || c == '.' then
      if seen = [] then .ok ([], rawURL) else getSchemeLoop rawURL (seen ++ [c]) cs
    else if c == ':' then
      if seen = [] then .error "missing protocol scheme" else .ok (seen, cs)
    else .ok ([], rawURL)

def getScheme (rawURL : List Char) : Except String (List Char × List Char) :=
  getSchemeLoop rawURL [] rawURL

/-- Go `validOptionalPort`: empty, or a colon followed by digits. -/
def validOptionalPort : List Char → Bool
  | [] => true
  | c :: cs => c == ':' && cs.all Char.isDigit

/-- The part of `host` from its last colon on, or nothing. -/
def portPart (host : List Char) : List Char :=
  match (cut ':' host.reverse) with
  | (p, _, true) => ':' :: p.reverse
  | _ => []

/-- Go `stringContainsCTLByte`. -/
def hasCTLByte (s : List Char) : Bool := s.any (fun c => c.toNat < 32 || c.toNat == 127)

/-- The query of `parse`: a lone `?` at the end sets `ForceQuery`, otherwise
the text is cut at its first `?`.  The result is what is left, `RawQuery`
and `ForceQuery`. -/
def splitQuery (rest : List Char) : List Char × List Char × Bool :=
  if rest.getLast? = some '?' ∧ rest.count '?' = 1 then (rest.dropLast, [], true)
  else ((cut '?' rest).1, (cut '?' rest).2.1, false)

/-- What `parse` does once the scheme is split off and put in lower case. -/
def parseAfterScheme (scheme rest : List Char) : Except String URL :=
  let rawQuery := (splitQuery rest).2.1
  let forceQuery := (splitQuery rest).2.2
  let rest := (splitQuery rest).1
  let u : URL := { Scheme := ⟨scheme⟩, RawQuery := ⟨rawQuery⟩, ForceQuery := forceQuery }
  if rest.head? ≠ some '/' ∧ scheme ≠ [] then .ok { u with OpaquePart := ⟨rest⟩ }
  else if rest.head? ≠ some '/' ∧ (cut '/' rest).1.contains ':' = true then
    .error "first path segment in URL cannot contain colon"
  else if (scheme ≠ [] ∨ rest.take 3 ≠ ['/', '/', '/']) ∧ rest.take 2 = ['/', '/'] then
    let authority := (cut '/' (rest.drop 2)).1
    let path :=
      if (cut '/' (rest.drop 2)).2.2 = true then '/' :: (cut '/' (rest.drop 2)).2.1
      else (cut '/' (rest.drop 2)).2.1
    if validOptionalPort (portPart authority) = true then
      .ok { u with Host := ⟨authority⟩, Path := ⟨path⟩ }
    else .error ("invalid port \"" ++ (⟨portPart authority⟩ : String) ++ "\" after host")
  else if scheme ≠ [] ∧ rest.head? = some '/' then
    .ok { u with OmitHost := true, Path := ⟨rest⟩ }
  else .ok { u with Path := ⟨rest⟩ }

/-- Go `parse(rawURL, false)` of `net/url`. -/
def parseNoFragment (rawURL : List Char) : Except String URL :=
  if hasCTLByte rawURL = true then .error "net/url: invalid control character in URL"
  else if rawURL = ['*'] then .ok { Path := "*" }
  else
    match getScheme rawURL with
    | .error err => .error err
    | .ok (scheme, rest) => parseAfterScheme (scheme.map Char.toLower) rest

/-- The text `err.Error()` of a `*url.Error`. -/
def urlError (op url err : String) : String :=
  op ++ " \"" ++ url ++ "\": " ++ err

/-- Go `url.Parse`. -/
def Parse (rawURL : String) : Except String URL :=
  let u := (cut '#' rawURL.data).1
  let frag := (cut '#' rawURL.data).2.1
  match parseNoFragment u with
  | .error err => .error (urlError "parse" ⟨u⟩ err)
  | .ok url => .ok { url with Fragment := ⟨frag⟩ }

/-- Go `(*URL).String`, for components that need no escaping: the path, the
host and the fragment are written as they stand. -/
def URLString (u : URL) : String :=
  let scheme := if u.Scheme ≠ "" then u.Scheme ++ ":" else ""
  let body :=
    if u.OpaquePart ≠ "" then scheme ++ u.OpaquePart
    else
      let authority :=
        if u.Scheme ≠ "" ∨ u.Host ≠ "" ∨ u.User.isSome then
          if u.OmitHost ∧ u.Host = "" ∧ u.User.isNone then ""
          else
            (if u.Host ≠ "" ∨ u.Path ≠ "" ∨ u.User.isSome then "//" else "") ++
            (match u.User with
             | some ui => ui ++ "@"
             | none => "") ++
            u.Host
        else ""
      let sep := if u.Path ≠ "" ∧ u.Path.data.head? ≠ some '/' ∧ u.Host ≠ "" then "/" else ""
      let dot :=
        if scheme ++ authority ++ sep = "" ∧ (cut '/' u.Path.data).1.contains ':' then "./" else ""
      scheme ++ authority ++ sep ++ dot ++ u.Path
  let query := if u.ForceQuery ∨ u.RawQuery ≠ "" then "?" ++ u.RawQuery else ""
  let fragment := if u.Fragment ≠ "" then "#" ++ u.Fragment else ""
  body ++ query ++ fragment

/-- Go `validMethod`: not empty, token characters only. -/
def validMethod (method : String) : Bool :=
  method ≠ "" && method.data.all validHeaderFieldByte

/-- The request of the next hop, as `(*Client).do` builds it from the first
request, the last request and the redirect response, for a redirect that
keeps the method and stays on the host of the first request, with a
`Location` that is an absolute URL: all headers of the first request are
kept and `Referer` is added.  What the client drops from the headers on a
redirect to another host or to another method is not modelled. -/
def nextHop (sent : List OutRequest) (resp : Response) : Except String OutRequest :=
  match sent.head?, sent.getLast? with
  | some ireq, some last =>
    let loc := resp.Header.Get "Location"
    match Parse loc with
    | .error err =>
      .error ("failed to parse Location header \"" ++ loc ++ "\": " ++ err)
    | .ok u =>
      let method :=
        if resp.StatusCode = 307 ∨ resp.StatusCode = 308 then ireq.Method
        else if ireq.Method ≠ "GET" ∧ ireq.Method ≠ "HEAD" then "GET"
        else ireq.Method
      let body := if resp.StatusCode = 307 ∨ resp.StatusCode = 308 then ireq.Body else ""
      let h : Header := ireq.Header
      let h :=
        if last.URL.Scheme = "https" ∧ u.Scheme = "http" then h
        else if h.Get "Referer" ≠ "" then h
        else h.Set "Referer" (URLString last.URL)
      .ok { Method := method, URL := u, Header := h, Body := body }
  | _, _ => .error "no request was sent"

/-- The rendering of the `*url.Error` around an error of `client.Do`. -/
def uerr (method url err : String) : String :=
  let op := match method.data with
    | [] => "Get"
    | c :: cs => (⟨c :: cs.map Char.toLower⟩ : String)
  urlError op url err

end Go

/-- The environment in which the standard library is `Go` and the network is `send`. -/
def goEnv (send : List OutRequest → OutRequest → Reply) : Env :=
  { parse := Go.Parse
    urlString := Go.URLString
    validMethod := Go.validMethod
    send := send
    nextHop := Go.nextHop
    uerr := Go.uerr }

/-! ## Auxiliary definitions and fixtures for the concrete evaluations -/

/-- The response written on the help branch. -/
def helpResult (g : Globals) : Result :=
  { StatusCode := 200, Header := [], Body := g.helpText, calls := [] }

/-- The response written when both guard headers are missing. -/
def guardResult : Result :=
  { StatusCode := 400, Header := []
    Body := "Error: Origin or X-Requested-With must be specified.", calls := [] }

/-- A header is absent, or its first value is the empty string. -/
def absentOrEmpty (h : Header) (name : String) : Prop :=
  h.find name = none ∨ h.find name = some [] ∨ ∃ vs, h.find name = some ("" :: vs)

/-- What `Header.Get` makes of a map entry: its first value, or `""`. -/
def firstValue : Option (List String) → String
  | some (v :: _) => v
  | _ => ""

/-- Go `strings.Split(s, ",")`, on the characters of `s`. -/
def splitComma : List Char → List (List Char)
  | [] => [[]]
  | c :: cs =>
    if c = ',' then [] :: splitComma cs
    else
      match splitComma cs with
      | [] => [[c]]
      | hd :: tl => (c :: hd) :: tl

/-- The comma-separated entries of a header value. -/
def entries (value : String) : List String := (splitComma value.data).map String.mk

/-- The loop over the keys, without the inner loop, which hands it nothing. -/
def copyKeys (src : Header) (ks : List String) (dst : Header) : Header :=
  ks.foldl (fun dst key => dst.Set key (src.Get key)) dst

/-- The characters `Join` puts after its first element. -/
def joinTail (sep : String) : List String → List Char
  | [] => []
  | x :: t => sep.data ++ x.data ++ joinTail sep t

/-- A network in which every request is answered by `resp`, without a redirect. -/
def always (resp : Response) : List OutRequest → OutRequest → Reply :=
  fun _ _ => .response resp false

/-- A guarded request for `/example.com/path` that carries a hop header, a
cookie header and a header with two values. -/
def exampleRequest : Request :=
  { Method := "GET", Path := "/example.com/path"
    Header := [("Origin", ["https://app.example"]), ("Upgrade", ["h2c"]),
               ("Cookie", ["a=1"]), ("Accept", ["text/html", "text/plain"])] }

/-- An upstream response that carries a hop header, two cookies and an
`Access-Control-Allow-Origin` of its own. -/
def exampleUpstream : Response :=
  { StatusCode := 200
    Header := [("Keep-Alive", ["timeout=5"]), ("Set-Cookie", ["a=1", "b=2"]),
               ("Access-Control-Allow-Origin", ["https://other.example"])]
    Body := "hello" }

/-- The outbound request the handler builds for `exampleRequest`. -/
def exampleOutbound : OutRequest :=
  { Method := "GET"
    URL := { Scheme := "http", Host := "example.com", Path := "/path" }
    Header := [("Origin", ["https://app.example"]), ("Upgrade", ["h2c"]),
               ("Cookie", ["a=1"]), ("Accept", ["text/html"])] }

/-- A guarded request for a target with a port after an address. -/
def portRequest : Request :=
  { Method := "GET", Path := "/1.2.3.4:80/x", Header := [("Origin", ["https://app.example"])] }

/-- The package variables when the process is started with
`--header-blacklist Cookie,Set-Cookie`. -/
def blacklistGlobals : Globals :=
  parseFlags { headerBlacklist := some ["Cookie", "Set-Cookie"] } packageInit

/-- A network in which the first `k` requests of an exchange are answered
with a redirect to `http://example.com/next` and the one after them with
status 200: a target that redirects `k` times in a row. -/
def redirectChain (k : Nat) : List OutRequest → OutRequest → Reply :=
  fun reqs _ =>
    if reqs.length < k then
      .response { StatusCode := 302, Header := [("Location", ["http://example.com/next"])] } true
    else .response { StatusCode := 200, Body := "done" } false

/-- The package variables when the process is started with `--max-redirects m`. -/
def redirectGlobals (m : Int) : Globals :=
  parseFlags { maxRedirects := some m } packageInit

/-- An upstream response that carries the four headers the handler sets
itself. -/
def annotatedUpstream : Response :=
  { StatusCode := 200
    Header := [("Access-Control-Allow-Origin", ["https://other.example"]),
               ("Access-Control-Expose-Headers", ["Etag"]),
               ("X-Request-Url", ["http://upstream.example/a"]),
               ("X-Final-Url", ["http://upstream.example/b"])] }

/-- Characters that `net/url` leaves as they stand in a path, a host and a
query, and that start neither a fragment nor user information. -/
def plainChar (c : Char) : Bool := c.isAlphanum || "-._~/:?=&+".data.contains c

/-- A target written in plain characters only. -/
def plainTarget (p : String) : Bool := p.data.all plainChar

/-- The first segment of a target: what stands before its first `/`, the
query left aside. -/
def firstSegment (p : String) : String := ⟨(Go.cut '/' (Go.cut '?' p.data).1).1⟩

/-- The names under which the handler stores its four own headers. -/
def annotationKeys : List String :=
  ["Access-Control-Allow-Origin", "Access-Control-Expose-Headers", "X-Request-Url", "X-Final-Url"]

end Corsproxy

namespace Corsproxy

/-! ## Lemmas on headers -/

theorem Header.find_put (h : Header) (k c : String) (vs : List String) :
    (h.put k vs).find c = if k = c then some vs else h.find c := by
  induction h with
  | nil => simp [Header.put, Header.find]
  | cons e t ih =>
    obtain ⟨k', vs'⟩ := e
    by_cases hk : k' = k
    · subst hk
      by_cases hc : k' = c <;> simp [Header.put, Header.find, hc]
    · by_cases hc : k' = c
      · subst hc
        simp [Header.put, Header.find, hk, Ne.symm hk]
      · simp [Header.put, Header.find, hk, hc, ih]

theorem Header.find_Set (h : Header) (key value c : String) :
    (h.Set key value).find c =
      if CanonicalMIMEHeaderKey key = c then some [value] else h.find c := by
  simp [Header.Set, Header.find_put]

theorem Header.mem_keys_of_find (h : Header) (k : String) (vs : List String)
    (hf : h.find k = some vs) : k ∈ h.keys := by
  induction h with
  | nil => simp [Header.find] at hf
  | cons e t ih =>
    obtain ⟨k', vs'⟩ := e
    by_cases hk : k' = k
    · simp [Header.keys, hk]
    · simp only [Header.find, hk, if_false] at hf
      have := ih hf
      simp [Header.keys] at this ⊢
      exact Or.inr this

theorem Header.find_isSome_of_mem_keys (h : Header) (k : String) (hk : k ∈ h.keys) :
    (h.find k).isSome := by
  induction h with
  | nil => simp [Header.keys] at hk
  | cons e t ih =>
    obtain ⟨k', vs'⟩ := e
    by_cases hkk : k' = k
    · simp [Header.find, hkk]
    · simp only [Header.keys, List.map_cons, List.mem_cons] at hk
      rcases hk with hk | hk
      · exact absurd hk.symm hkk
      · simpa [Header.find, hkk] using ih hk

/-- The guard reads as `""` exactly what `absentOrEmpty` describes. -/
theorem Header.Get_eq_empty_of_absentOrEmpty (h : Header) (name : String)
    (hc : CanonicalMIMEHeaderKey name = name) (ha : absentOrEmpty h name) :
    h.Get name = "" := by
  unfold Header.Get
  rw [hc]
  rcases ha with ha | ha | ⟨vs, ha⟩ <;> simp [ha]

theorem Header.Get_eq_firstValue (h : Header) (key : String) :
    h.Get key = firstValue (h.find (CanonicalMIMEHeaderKey key)) := by
  unfold Header.Get firstValue
  rfl

/-! ## The two copy loops -/

theorem copyRequestHeader_eq (g : Globals) (src dst : Header) :
    copyRequestHeader g src dst = copyKeys src src.keys dst := rfl

theorem copyKeys_find (src : Header) (c : String) :
    ∀ (ks : List String) (dst : Header),
      (copyKeys src ks dst).find c =
        if c ∈ ks.map CanonicalMIMEHeaderKey then some [firstValue (src.find c)]
        else dst.find c := by
  intro ks
  induction ks with
  | nil => intro dst; simp [copyKeys]
  | cons k t ih =>
    intro dst
    have hstep : copyKeys src (k :: t) dst = copyKeys src t (dst.Set k (src.Get k)) := rfl
    rw [hstep, ih]
    by_cases ht : c ∈ t.map CanonicalMIMEHeaderKey
    · simp [ht]
    · by_cases hk : CanonicalMIMEHeaderKey k = c
      · have hm : c ∈ (k :: t).map CanonicalMIMEHeaderKey := by simp [hk]
        rw [if_neg ht, if_pos hm, Header.find_Set, if_pos hk, Header.Get_eq_firstValue, hk]
      · have hm : c ∉ (k :: t).map CanonicalMIMEHeaderKey := by
          simp only [List.map_cons, List.mem_cons, not_or]
          exact ⟨fun h => hk h.symm, ht⟩
        rw [if_neg ht, if_neg hm, Header.find_Set, if_neg hk]

theorem copyResponseHeader_fold (g : Globals) (src : Header) :
    ∀ (ks : List String) (dst : Header) (expose : List String),
      ks.foldl
          (fun (st : Header × List String) key =>
            let _ := ignoreLoop key (hopHeaders ++ g.headerBlacklist)
            (st.1.Set key (src.Get key), st.2 ++ [key]))
          (dst, expose) =
        (copyKeys src ks dst, expose ++ ks) := by
  intro ks
  induction ks with
  | nil => intro dst expose; simp [copyKeys]
  | cons k t ih =>
    intro dst expose
    rw [List.foldl_cons, ih]
    simp [copyKeys]

theorem copyResponseHeader_eq (g : Globals) (src dst : Header) (expose : List String) :
    copyResponseHeader g src dst expose = (copyKeys src src.keys dst, expose ++ src.keys) :=
  copyResponseHeader_fold g src src.keys dst expose

/-! ## Joining and splitting -/

theorem Join_data (sep : String) :
    ∀ (rest : List String) (e : String),
      (Join (e :: rest) sep).data = e.data ++ joinTail sep rest := by
  intro rest
  induction rest with
  | nil => intro e; simp [Join, joinTail]
  | cons x t ih =>
    intro e
    have hstep : Join (e :: x :: t) sep = Join ((e ++ sep ++ x) :: t) sep := rfl
    rw [hstep, ih]
    simp [joinTail, String.data_append, List.append_assoc]

theorem splitComma_single (a : List Char) (ha : ',' ∉ a) : splitComma a = [a] := by
  induction a with
  | nil => rfl
  | cons c t ih =>
    have hc : c ≠ ',' := fun h => ha (by simp [h])
    have ht : ',' ∉ t := fun h => ha (by simp [h])
    simp [splitComma, hc, ih ht]

theorem splitComma_append (a b : List Char) (ha : ',' ∉ a) :
    splitComma (a ++ ',' :: b) = a :: splitComma b := by
  induction a with
  | nil => simp [splitComma]
  | cons c t ih =>
    have hc : c ≠ ',' := fun h => ha (by simp [h])
    have ht : ',' ∉ t := fun h => ha (by simp [h])
    simp [splitComma, hc, ih ht]

theorem splitComma_joinTail :
    ∀ (rest : List String) (e : String),
      (∀ x ∈ e :: rest, ',' ∉ x.data) →
      splitComma (e.data ++ joinTail "," rest) = (e :: rest).map String.data := by
  intro rest
  induction rest with
  | nil =>
    intro e h
    simp [joinTail, splitComma_single e.data (h e (by simp))]
  | cons x t ih =>
    intro e h
    have hsep : (",".data : List Char) = [','] := rfl
    have he : ',' ∉ e.data := h e (by simp)
    have hrest : ∀ y ∈ x :: t, ',' ∉ y.data := fun y hy => h y (by simp [List.mem_cons] at hy ⊢; tauto)
    have hj : e.data ++ joinTail "," (x :: t) = e.data ++ ',' :: (x.data ++ joinTail "," t) := by
      simp [joinTail, hsep]
    rw [hj, splitComma_append e.data _ he, ih x hrest]
    simp

/-- Splitting a joined list at the commas gives the list back, when no
element holds a comma. -/
theorem entries_Join (e : String) (rest : List String)
    (h : ∀ x ∈ e :: rest, ',' ∉ x.data) : entries (Join (e :: rest) ",") = e :: rest := by
  unfold entries
  rw [Join_data, splitComma_joinTail rest e h, List.map_map]
  have hid : (String.mk ∘ String.data) = id := by
    funext x
    rfl
  rw [hid, List.map_id]

/-! ## The redirect loop ends -/

theorem Client.doLoop_isSome (env : Env) (g : Globals) :
    ∀ (fuel : Nat) (reqs : List OutRequest) (req : OutRequest),
      1 ≤ fuel → g.maxRedirects.toNat + 1 ≤ fuel + reqs.length →
      (Client.doLoop env (CheckRedirect g) fuel reqs req).isSome := by
  intro fuel
  induction fuel with
  | zero => intro _ _ h; omega
  | succ n ih =>
    intro reqs req _ hlen
    unfold Client.doLoop
    cases hs : env.send reqs req with
    | failure err => simp
    | response resp b =>
      cases b with
      | false => simp
      | true =>
        cases hn : env.nextHop (reqs ++ [req]) resp with
        | error err => simp [hn]
        | ok next =>
          cases hc : CheckRedirect g next (reqs ++ [req]) with
          | some err => simp [hn, hc]
          | none =>
            simp only [hn, hc]
            have hlt : ((reqs ++ [req]).length : Int) < g.maxRedirects := by
              unfold CheckRedirect at hc
              by_contra hge
              rw [if_pos (by omega)] at hc
              exact absurd hc (by simp)
            have hl : (reqs ++ [req]).length = reqs.length + 1 := by simp
            apply ih
            · rw [hl] at hlt; omega
            · rw [hl] at hlt ⊢; omega

theorem Client.Do_isSome (g : Globals) (env : Env) (nreq : OutRequest) :
    (Client.Do g env nreq).isSome := by
  unfold Client.Do
  apply Client.doLoop_isSome
  · omega
  · simp

/-! ## The branches of the handler -/

theorem target_eq_none_iff (req : Request) :
    target req = none ↔ TrimLeft req.Path "/" = "" := by
  unfold target
  by_cases hp : TrimLeft req.Path "/" = ""
  · simp [hp]
  · by_cases hq : req.RawQuery = "" <;> simp [hp, hq]

theorem target_isSome_of_ne (req : Request) (hp : TrimLeft req.Path "/" ≠ "") :
    ∃ p, target req = some p := by
  cases h : target req with
  | none => exact absurd ((target_eq_none_iff req).1 h) hp
  | some p => exact ⟨p, rfl⟩

theorem outbound_of_guard_missing (g : Globals) (env : Env) (req : Request) (p : String)
    (ht : target req = some p)
    (h1 : req.Header.Get "Origin" = "") (h2 : req.Header.Get "X-Requested-With" = "") :
    outbound g env req = .error guardResult := by
  simp [outbound, ht, h1, h2, guardResult]

theorem handleCORS_of_early (g : Globals) (env : Env) (req : Request) (r : Result)
    (ho : outbound g env req = .error r) : handleCORS g env req = some (.response r) := by
  simp [handleCORS, ho]

theorem handleCORS_of_failure (g : Globals) (env : Env) (req : Request) (u : URL)
    (nreq : OutRequest) (err : String) (calls : List OutRequest)
    (ho : outbound g env req = .ok (u, nreq))
    (hd : Client.Do g env nreq = some (.error err, calls)) :
    handleCORS g env req = some (.response (errorResult err calls)) := by
  simp [handleCORS, ho, hd]

theorem handleCORS_of_response (g : Globals) (env : Env) (req : Request) (u : URL)
    (nreq : OutRequest) (resp : Response) (final : OutRequest) (calls : List OutRequest)
    (ho : outbound g env req = .ok (u, nreq))
    (hd : Client.Do g env nreq = some (.ok (resp, final), calls)) :
    handleCORS g env req = some (relay g env u resp final calls) := by
  simp [handleCORS, ho, hd]

/-- The relayed response, when `w.WriteHeader` accepts the upstream status. -/
theorem relay_of_valid (g : Globals) (env : Env) (u : URL) (resp : Response)
    (final : OutRequest) (calls : List OutRequest)
    (hv : invalidWriteHeaderCode resp.StatusCode = false) :
    relay g env u resp final calls =
      .response { StatusCode := resp.StatusCode, Header := relayHeader g env u resp final
                  Body := resp.Body, calls := calls } := by
  simp [relay, hv]

/-- The panic, when `w.WriteHeader` does not accept the upstream status. -/
theorem relay_of_invalid (g : Globals) (env : Env) (u : URL) (resp : Response)
    (final : OutRequest) (calls : List OutRequest)
    (hv : invalidWriteHeaderCode resp.StatusCode = true) :
    relay g env u resp final calls =
      .panic ("invalid WriteHeader code " ++ toString resp.StatusCode) calls := by
  simp [relay, hv]

theorem relay_calls (g : Globals) (env : Env) (u : URL) (resp : Response)
    (final : OutRequest) (calls : List OutRequest) :
    (relay g env u resp final calls).calls = calls := by
  cases hv : invalidWriteHeaderCode resp.StatusCode with
  | true => rw [relay_of_invalid g env u resp final calls hv]; rfl
  | false => rw [relay_of_valid g env u resp final calls hv]; rfl

theorem NewRequest_ok (env : Env) (method url body : String) (nreq : OutRequest)
    (h : NewRequest env method url body = .ok nreq) :
    ∃ u, env.parse url = .ok u ∧
      nreq = { Method := if method = "" then "GET" else method
               URL := { u with Host := removeEmptyPort u.Host }
               Header := [], Body := body } := by
  unfold NewRequest at h
  by_cases hv : env.validMethod (if method = "" then "GET" else method) = true
  · cases hp : env.parse url with
    | error err => simp [hv, hp] at h
    | ok u =>
      simp only [hv, hp, Bool.not_true] at h
      refine ⟨u, rfl, ?_⟩
      simp at h
      exact h.symm
  · simp [hv] at h

theorem outbound_ok (g : Globals) (env : Env) (req : Request) (u : URL) (nreq : OutRequest)
    (ho : outbound g env req = .ok (u, nreq)) :
    ∃ p u0 nreq0, target req = some p ∧
      ¬ (req.Header.Get "Origin" = "" ∧ req.Header.Get "X-Requested-With" = "") ∧
      env.parse p = .ok u0 ∧
      u = (if u0.Scheme = "" then { u0 with Scheme := "http" } else u0) ∧
      NewRequest env req.Method (env.urlString u) req.Body = .ok nreq0 ∧
      nreq = { nreq0 with Header := copyRequestHeader g req.Header nreq0.Header } := by
  unfold outbound at ho
  cases ht : target req with
  | none => simp [ht] at ho
  | some p =>
    simp only [ht] at ho
    by_cases hg : req.Header.Get "Origin" = "" ∧ req.Header.Get "X-Requested-With" = ""
    · rw [if_pos hg] at ho
      cases ho
    · rw [if_neg hg] at ho
      cases hp : env.parse p with
      | error err => simp [hp] at ho
      | ok u0 =>
        simp only [hp] at ho
        cases hn : NewRequest env req.Method
            (env.urlString (if u0.Scheme = "" then { u0 with Scheme := "http" } else u0))
            req.Body with
        | error err => simp [hn] at ho
        | ok nreq0 =>
          simp only [hn] at ho
          have hu : u = (if u0.Scheme = "" then { u0 with Scheme := "http" } else u0) := by
            cases ho
            rfl
          refine ⟨p, u0, nreq0, rfl, hg, hp, hu, ?_, ?_⟩
          · rw [hu]
            exact hn
          · cases ho
            rfl

/-- The handler always ends, with a response or with the panic of
`w.WriteHeader`: the redirect loop never runs out of fuel. -/
theorem handleCORS_isSome (g : Globals) (env : Env) (req : Request) :
    (handleCORS g env req).isSome := by
  cases ho : outbound g env req with
  | error r => simp [handleCORS_of_early g env req r ho]
  | ok un =>
    obtain ⟨u, nreq⟩ := un
    have h := Client.Do_isSome g env nreq
    cases hd : Client.Do g env nreq with
    | none => simp [hd] at h
    | some res =>
      obtain ⟨e, calls⟩ := res
      cases e with
      | error err => simp [handleCORS_of_failure g env req u nreq err calls ho hd]
      | ok rf =>
        obtain ⟨resp, final⟩ := rf
        simp [handleCORS_of_response g env req u nreq resp final calls ho hd]

/-! ## The guard -/

/-- C1: a request whose target is not empty and whose `Origin` and
`X-Requested-With` headers are both absent or empty is answered with status
400 and the fixed message, and no outbound request is sent, whatever
`url.Parse` would say about the target. -/
theorem guard_missing_gives_400 (g : Globals) (env : Env) (req : Request)
    (hp : TrimLeft req.Path "/" ≠ "")
    (ho : absentOrEmpty req.Header "Origin")
    (hx : absentOrEmpty req.Header "X-Requested-With") :
    handleCORS g env req =
      some (.response { StatusCode := 400, Header := []
                        Body := "Error: Origin or X-Requested-With must be specified."
                        calls := [] }) := by
  apply handleCORS_of_early
  have h1 : req.Header.Get "Origin" = "" :=
    Header.Get_eq_empty_of_absentOrEmpty _ _ (by decide) ho
  have h2 : req.Header.Get "X-Requested-With" = "" :=
    Header.Get_eq_empty_of_absentOrEmpty _ _ (by decide) hx
  obtain ⟨p, ht⟩ := target_isSome_of_ne req hp
  exact outbound_of_guard_missing g env req p ht h1 h2

/-- C1 at a request without guard headers whose target `url.Parse` rejects. -/
theorem guard_missing_gives_400_witness :
    Go.Parse "1.2.3.4:80/x" =
      .error "parse \"1.2.3.4:80/x\": first path segment in URL cannot contain colon" ∧
    handleCORS packageInit (goEnv (always { StatusCode := 200 }))
        { Method := "GET", Path := "/1.2.3.4:80/x", Header := [("Accept", ["*/*"])] } =
      some (.response { StatusCode := 400, Header := []
                        Body := "Error: Origin or X-Requested-With must be specified."
                        calls := [] }) :=
  ⟨by rfl,
   guard_missing_gives_400 packageInit (goEnv (always { StatusCode := 200 }))
     { Method := "GET", Path := "/1.2.3.4:80/x", Header := [("Accept", ["*/*"])] }
     (by decide) (Or.inl rfl) (Or.inl rfl)⟩

/-! ## The help branch -/

theorem TrimLeft_slash (s : String) :
    TrimLeft s "/" = ⟨s.data.dropWhile (fun c => c == '/')⟩ := by
  unfold TrimLeft
  congr 1
  congr 1
  funext c
  have hd : "/".data = ['/'] := rfl
  rw [hd]
  by_cases hc : c = '/' <;> simp [hc]

theorem TrimLeft_slash_eq_empty_iff (s : String) :
    TrimLeft s "/" = "" ↔ s.data.all (fun c => c == '/') = true := by
  rw [TrimLeft_slash]
  constructor
  · intro h
    have h' : s.data.dropWhile (fun c => c == '/') = [] := congrArg String.data h
    rw [List.dropWhile_eq_nil_iff] at h'
    simpa [List.all_eq_true] using h'
  · intro h
    have h' : s.data.dropWhile (fun c => c == '/') = [] := by
      rw [List.dropWhile_eq_nil_iff]
      simpa [List.all_eq_true] using h
    rw [h']

theorem canon_finalURL : CanonicalMIMEHeaderKey "X-Final-URL" = "X-Final-Url" := by decide

theorem canon_requestURL : CanonicalMIMEHeaderKey "X-Request-URL" = "X-Request-Url" := by decide

theorem canon_allowOrigin :
    CanonicalMIMEHeaderKey "Access-Control-Allow-Origin" = "Access-Control-Allow-Origin" := by
  decide

theorem canon_exposeHeaders :
    CanonicalMIMEHeaderKey "Access-Control-Expose-Headers" = "Access-Control-Expose-Headers" := by
  decide

theorem relay_ne_helpResult (g : Globals) (env : Env) (u : URL) (resp : Response)
    (final : OutRequest) (calls : List OutRequest) :
    relay g env u resp final calls ≠ .response (helpResult g) := by
  intro h
  cases hv : invalidWriteHeaderCode resp.StatusCode with
  | true =>
    rw [relay_of_invalid g env u resp final calls hv] at h
    cases h
  | false =>
    rw [relay_of_valid g env u resp final calls hv] at h
    have hr := Outcome.response.inj h
    have hf := congrArg (fun r => r.Header.find "X-Final-Url") hr
    simp [relayHeader, helpResult, Header.find_Set, Header.find, canon_finalURL] at hf

theorem outbound_error_cases (g : Globals) (env : Env) (req : Request) (r : Result)
    (ho : outbound g env req = .error r) :
    (target req = none ∧ r = helpResult g) ∨ r = guardResult ∨ ∃ err, r = errorResult err [] := by
  unfold outbound at ho
  cases ht : target req with
  | none =>
    simp only [ht] at ho
    left
    exact ⟨rfl, by cases ho; rfl⟩
  | some p =>
    simp only [ht] at ho
    split at ho
    · right; left; cases ho; rfl
    · right; right
      cases hp : env.parse p with
      | error err =>
        simp only [hp] at ho
        exact ⟨err, by cases ho; rfl⟩
      | ok u0 =>
        simp only [hp] at ho
        split at ho
        · rename_i err _
          exact ⟨err, by cases ho; rfl⟩
        · cases ho

/-- C8, as the code has it: the help document is the answer exactly when the
inbound path holds nothing but slashes (the empty path included), with or
without a guard header; for any other path every leading slash is removed
and what remains, with the query string, is the target of the proxy branch. -/
theorem help_iff_only_slashes (g : Globals) (env : Env) (req : Request) :
    (handleCORS g env req =
        some (.response { StatusCode := 200, Header := [], Body := g.helpText, calls := [] })
      ↔ req.Path.data.all (fun c => c == '/') = true) ∧
    (req.Path.data.all (fun c => c == '/') = false →
      target req = some ((⟨req.Path.data.dropWhile (fun c => c == '/')⟩ : String) ++
        (if req.RawQuery = "" then "" else "?" ++ req.RawQuery))) := by
  refine ⟨⟨?_, ?_⟩, ?_⟩
  · intro h
    rw [← TrimLeft_slash_eq_empty_iff, ← target_eq_none_iff]
    cases ho : outbound g env req with
    | error r =>
      rw [handleCORS_of_early g env req r ho] at h
      have hr : r = helpResult g := by cases h; rfl
      rcases outbound_error_cases g env req r ho with ⟨ht, _⟩ | hg | ⟨err, he⟩
      · exact ht
      · rw [hg] at hr
        exact absurd (congrArg Result.StatusCode hr) (by simp [guardResult, helpResult])
      · rw [he] at hr
        exact absurd (congrArg Result.StatusCode hr) (by simp [errorResult, helpResult])
    | ok un =>
      obtain ⟨u, nreq⟩ := un
      cases hd : Client.Do g env nreq with
      | none => simp [handleCORS, ho, hd] at h
      | some res =>
        obtain ⟨e, calls⟩ := res
        cases e with
        | error err =>
          rw [handleCORS_of_failure g env req u nreq err calls ho hd] at h
          have hr : errorResult err calls = helpResult g :=
            Outcome.response.inj (Option.some.inj h)
          exact absurd (congrArg Result.StatusCode hr) (by simp [errorResult, helpResult])
        | ok rf =>
          obtain ⟨resp, final⟩ := rf
          rw [handleCORS_of_response g env req u nreq resp final calls ho hd] at h
          exact absurd (Option.some.inj h) (relay_ne_helpResult g env u resp final calls)
  · intro h
    apply handleCORS_of_early
    have ht : target req = none :=
      (target_eq_none_iff req).2 ((TrimLeft_slash_eq_empty_iff req.Path).2 h)
    simp [outbound, ht]
  · intro h
    have hp : TrimLeft req.Path "/" ≠ "" := by
      intro he
      rw [(TrimLeft_slash_eq_empty_iff req.Path).1 he] at h
      exact absurd h (by decide)
    unfold target
    simp only [hp, if_false]
    rw [TrimLeft_slash]
    by_cases hq : req.RawQuery = ""
    · simp [hq]
    · simp [hq, String.append_assoc]

/-- C8 is false as written: the path `//` is neither empty nor `/`, and it is
answered with the help document; and of the path `//example.com/x` both
slashes go, not one. -/
theorem help_for_double_slash :
    "//" ≠ "" ∧ "//" ≠ "/" ∧
    handleCORS packageInit (goEnv (always { StatusCode := 200 })) { Method := "GET", Path := "//" } =
      some (.response
        { StatusCode := 200, Header := [], Body := packageInit.helpText, calls := [] }) ∧
    target { Method := "GET", Path := "//example.com/x" } = some "example.com/x" ∧
    target { Method := "GET", Path := "//example.com/x" } ≠ some "/example.com/x" := by
  refine ⟨by decide, by decide, by rfl, by rfl, by decide⟩

/-! ## The client timeout -/

/-- Whatever the command line says, the client keeps the timeout it was given
at package initialisation. -/
theorem client_timeout_after_main (f : Flags) (g : Globals) (hm : main f = some g) :
    g.client.Timeout = 15 * Second ∧ g.timeout = f.timeout.getD 15 := by
  unfold main at hm
  split at hm
  · cases hm
  · cases hm
    exact ⟨by simp only [parseFlags]; decide, rfl⟩

/-- C9 fails on the code: started with `--timeout 30` the variable `timeout`
is 30, and the timeout of the shared client is still 15 seconds. -/
theorem timeout_flag_does_not_reach_client :
    ∃ g, main { timeout := some 30 } = some g ∧ g.timeout = 30 ∧
      g.client.Timeout = 15 * Second ∧ g.client.Timeout ≠ 30 * Second :=
  ⟨parseFlags { timeout := some 30 } packageInit, by rfl, by rfl, by decide, by decide⟩

/-! ## The upstream status -/

theorem invalidWriteHeaderCode_eq_false (code : Nat) (h100 : 100 ≤ code) (h999 : code ≤ 999) :
    invalidWriteHeaderCode code = false := by
  unfold invalidWriteHeaderCode
  simp
  omega

/-- After an exchange that gave a response with a status `w.WriteHeader`
accepts, the handler writes the relayed response. -/
theorem handleCORS_of_valid_status (g : Globals) (env : Env) (req : Request) (u : URL)
    (nreq : OutRequest) (resp : Response) (final : OutRequest) (calls : List OutRequest)
    (ho : outbound g env req = .ok (u, nreq))
    (hd : Client.Do g env nreq = some (.ok (resp, final), calls))
    (h100 : 100 ≤ resp.StatusCode) (h999 : resp.StatusCode ≤ 999) :
    handleCORS g env req =
      some (.response { StatusCode := resp.StatusCode, Header := relayHeader g env u resp final
                        Body := resp.Body, calls := calls }) := by
  rw [handleCORS_of_response g env req u nreq resp final calls ho hd,
    relay_of_valid g env u resp final calls (invalidWriteHeaderCode_eq_false _ h100 h999)]

/-- After an exchange that gave a response with a status below 100 (or above
999), the handler panics in `w.WriteHeader` and writes nothing. -/
theorem handleCORS_of_invalid_status (g : Globals) (env : Env) (req : Request) (u : URL)
    (nreq : OutRequest) (resp : Response) (final : OutRequest) (calls : List OutRequest)
    (ho : outbound g env req = .ok (u, nreq))
    (hd : Client.Do g env nreq = some (.ok (resp, final), calls))
    (hv : resp.StatusCode < 100 ∨ resp.StatusCode > 999) :
    handleCORS g env req =
      some (.panic ("invalid WriteHeader code " ++ toString resp.StatusCode) calls) := by
  have hi : invalidWriteHeaderCode resp.StatusCode = true := by
    unfold invalidWriteHeaderCode
    simp
    omega
  rw [handleCORS_of_response g env req u nreq resp final calls ho hd,
    relay_of_invalid g env u resp final calls hi]

/-! ## The cross-origin headers -/

theorem relayHeader_find_allowOrigin (g : Globals) (env : Env) (u : URL) (resp : Response)
    (final : OutRequest) :
    (relayHeader g env u resp final).find "Access-Control-Allow-Origin" = some ["*"] := by
  simp [relayHeader, Header.find_Set, canon_finalURL, canon_requestURL, canon_allowOrigin,
    canon_exposeHeaders]

/-- C5: when the outbound request was built, the client returned a response
and the handler relayed it (its status is one `w.WriteHeader` accepts), the
caller's response has `Access-Control-Allow-Origin` with the single value
`*`, whatever the upstream response carried under that name. -/
theorem allow_origin_is_star (g : Globals) (env : Env) (req : Request) (u : URL)
    (nreq : OutRequest) (resp : Response) (final : OutRequest) (calls : List OutRequest)
    (ho : outbound g env req = .ok (u, nreq))
    (hd : Client.Do g env nreq = some (.ok (resp, final), calls))
    (h100 : 100 ≤ resp.StatusCode) (h999 : resp.StatusCode ≤ 999) :
    ∃ r, handleCORS g env req = some (.response r) ∧
      r.Header.find "Access-Control-Allow-Origin" = some ["*"] :=
  ⟨_, handleCORS_of_valid_status g env req u nreq resp final calls ho hd h100 h999,
    relayHeader_find_allowOrigin g env u resp final⟩

/-- C5 where the upstream response has `Access-Control-Allow-Origin:
https://other.example`. -/
theorem allow_origin_is_star_witness :
    exampleUpstream.Header.find "Access-Control-Allow-Origin" = some ["https://other.example"] ∧
    ∃ r, handleCORS packageInit (goEnv (always exampleUpstream)) exampleRequest
        = some (.response r) ∧
      r.Header.find "Access-Control-Allow-Origin" = some ["*"] :=
  ⟨by rfl,
   allow_origin_is_star packageInit (goEnv (always exampleUpstream)) exampleRequest
     _ _ exampleUpstream _ _ (by rfl) (by rfl) (by decide) (by decide)⟩

/-! ## Header filtering -/

/-- Neither loop filters: the outbound request gets every inbound header name
in canonical form, whatever the hop-header set and the blacklist hold. -/
theorem copyRequestHeader_forwards_all (g : Globals) (src dst : Header) (k : String)
    (hk : k ∈ src.keys) :
    ((copyRequestHeader g src dst).find (CanonicalMIMEHeaderKey k)).isSome := by
  rw [copyRequestHeader_eq, copyKeys_find]
  have hm : CanonicalMIMEHeaderKey k ∈ src.keys.map CanonicalMIMEHeaderKey :=
    List.mem_map_of_mem _ hk
  simp [hm]

/-- C2 fails on the code: with `Set-Cookie` on the blacklist, an upstream
response that carries the hop header `Keep-Alive` and a `Set-Cookie` header
is relayed with both, and both are entries of `Access-Control-Expose-Headers`. -/
theorem hop_header_reaches_caller :
    "Keep-Alive" ∈ hopHeaders ∧ "Set-Cookie" ∈ blacklistGlobals.headerBlacklist ∧
    ∃ r, handleCORS blacklistGlobals (goEnv (always exampleUpstream)) exampleRequest
        = some (.response r) ∧
      r.StatusCode = 200 ∧
      r.Header.find "Keep-Alive" = some ["timeout=5"] ∧
      r.Header.find "Set-Cookie" = some ["a=1"] ∧
      r.Header.find "Access-Control-Expose-Headers" =
        some ["X-Request-URL,Keep-Alive,Set-Cookie,Access-Control-Allow-Origin"] :=
  ⟨by decide, by decide, _, rfl, by rfl, by rfl, by rfl, by rfl⟩

/-- C3 fails on the code: with `Cookie` on the blacklist, the outbound request
for a request that carries the hop header `Upgrade` and a `Cookie` header
has both, and that request is the one sent. -/
theorem hop_header_reaches_target :
    "Upgrade" ∈ hopHeaders ∧ "Cookie" ∈ blacklistGlobals.headerBlacklist ∧
    ∃ u nreq r, outbound blacklistGlobals (goEnv (always exampleUpstream)) exampleRequest
        = .ok (u, nreq) ∧
      nreq.Header.keys = ["Origin", "Upgrade", "Cookie", "Accept"] ∧
      nreq.Header.find "Upgrade" = some ["h2c"] ∧
      nreq.Header.find "Cookie" = some ["a=1"] ∧
      handleCORS blacklistGlobals (goEnv (always exampleUpstream)) exampleRequest
        = some (.response r) ∧
      r.calls = [nreq] :=
  ⟨by decide, by decide, _, _, _, rfl, by rfl, by rfl, by rfl, rfl, by rfl⟩

/-! ## The exposed headers -/

theorem relayHeader_find_exposeHeaders (g : Globals) (env : Env) (u : URL) (resp : Response)
    (final : OutRequest) :
    (relayHeader g env u resp final).find "Access-Control-Expose-Headers" =
      some [Join ("X-Request-URL" :: resp.Header.keys) ","] := by
  simp [relayHeader, copyResponseHeader_eq, Header.find_Set, canon_finalURL, canon_requestURL,
    canon_exposeHeaders]

theorem relayHeader_find_requestURL (g : Globals) (env : Env) (u : URL) (resp : Response)
    (final : OutRequest) :
    (relayHeader g env u resp final).find "X-Request-Url" = some [env.urlString u] := by
  simp [relayHeader, Header.find_Set, canon_finalURL, canon_requestURL]

theorem relayHeader_find_finalURL (g : Globals) (env : Env) (u : URL) (resp : Response)
    (final : OutRequest) :
    (relayHeader g env u resp final).find "X-Final-Url" = some [env.urlString final.URL] := by
  simp [relayHeader, Header.find_Set, canon_finalURL]

theorem relayHeader_find_other (g : Globals) (env : Env) (u : URL) (resp : Response)
    (final : OutRequest) (k : String) (hk : k ∉ annotationKeys) :
    (relayHeader g env u resp final).find k =
      (copyKeys resp.Header resp.Header.keys []).find k := by
  simp only [annotationKeys, List.mem_cons, List.mem_singleton, not_or, List.not_mem_nil,
    or_false] at hk
  obtain ⟨h1, h2, h3, h4⟩ := hk
  simp [relayHeader, copyResponseHeader_eq, Header.find_Set, canon_finalURL, canon_requestURL,
    canon_exposeHeaders, canon_allowOrigin, Ne.symm h1, Ne.symm h2, Ne.symm h3, Ne.symm h4]

theorem relayHeader_find_isSome_of_copied (g : Globals) (env : Env) (u : URL) (resp : Response)
    (final : OutRequest) (k : String)
    (hk : ((copyKeys resp.Header resp.Header.keys []).find k).isSome) :
    ((relayHeader g env u resp final).find k).isSome := by
  by_cases ha : k ∈ annotationKeys
  · simp only [annotationKeys, List.mem_cons, List.mem_singleton, List.not_mem_nil,
      or_false] at ha
    rcases ha with ha | ha | ha | ha <;> subst ha <;>
      simp [relayHeader, copyResponseHeader_eq, Header.find_Set, canon_finalURL,
        canon_requestURL, canon_exposeHeaders, canon_allowOrigin]
  · rw [relayHeader_find_other g env u resp final k ha]
    exact hk

theorem map_canonical_eq_self (ks : List String)
    (hc : ∀ k ∈ ks, CanonicalMIMEHeaderKey k = k) : ks.map CanonicalMIMEHeaderKey = ks := by
  induction ks with
  | nil => rfl
  | cons k t ih =>
    rw [List.map_cons, hc k (by simp), ih (fun x hx => hc x (by simp [hx]))]

/-- C4: when the outbound request was built, the client returned a response
and the handler relayed it (its status is one `w.WriteHeader` accepts),
`Access-Control-Expose-Headers` has one value, the comma-join of
`X-Request-URL` followed by the names of the upstream response headers, and
those are exactly the names the copy loop handled: every listed name is
stored by the loop and is on the response that is written, under its
canonical form, and the loop stored nothing else.  When no name holds a
comma, the comma-separated entries of the value are that list; when the
names are in canonical form, as `net/http` builds them, a name is listed if
and only if the loop stored a header under it. -/
theorem expose_headers_are_the_copied_names (g : Globals) (env : Env) (req : Request)
    (u : URL) (nreq : OutRequest) (resp : Response) (final : OutRequest)
    (calls : List OutRequest)
    (ho : outbound g env req = .ok (u, nreq))
    (hd : Client.Do g env nreq = some (.ok (resp, final), calls))
    (h100 : 100 ≤ resp.StatusCode) (h999 : resp.StatusCode ≤ 999) :
    ∃ r value, handleCORS g env req = some (.response r) ∧
      r.Header.find "Access-Control-Expose-Headers" = some [value] ∧
      value = Join ("X-Request-URL" :: resp.Header.keys) "," ∧
      (∀ k ∈ resp.Header.keys,
        ((copyResponseHeader g resp.Header [] ["X-Request-URL"]).1.find
          (CanonicalMIMEHeaderKey k)).isSome ∧
        (r.Header.find (CanonicalMIMEHeaderKey k)).isSome) ∧
      (∀ c, ((copyResponseHeader g resp.Header [] ["X-Request-URL"]).1.find c).isSome →
        ∃ k ∈ resp.Header.keys, CanonicalMIMEHeaderKey k = c) ∧
      ((∀ k ∈ resp.Header.keys, ',' ∉ k.data) →
        entries value = "X-Request-URL" :: resp.Header.keys) ∧
      ((∀ k ∈ resp.Header.keys, CanonicalMIMEHeaderKey k = k) →
        ∀ k, k ∈ resp.Header.keys ↔
          ((copyResponseHeader g resp.Header [] ["X-Request-URL"]).1.find k).isSome) := by
  have hcopied : ∀ c, ((copyKeys resp.Header resp.Header.keys []).find c).isSome ↔
      c ∈ resp.Header.keys.map CanonicalMIMEHeaderKey := by
    intro c
    rw [copyKeys_find]
    by_cases hc : c ∈ resp.Header.keys.map CanonicalMIMEHeaderKey <;> simp [hc, Header.find]
  refine ⟨_, _, handleCORS_of_valid_status g env req u nreq resp final calls ho hd h100 h999,
    relayHeader_find_exposeHeaders g env u resp final, rfl, ?_, ?_, ?_, ?_⟩
  · intro k hk
    have hs : ((copyKeys resp.Header resp.Header.keys []).find
        (CanonicalMIMEHeaderKey k)).isSome := (hcopied _).2 (List.mem_map_of_mem _ hk)
    exact ⟨by rw [copyResponseHeader_eq]; exact hs,
      relayHeader_find_isSome_of_copied g env u resp final _ hs⟩
  · intro c hc
    rw [copyResponseHeader_eq] at hc
    obtain ⟨k, hk, hkc⟩ := List.mem_map.1 ((hcopied c).1 hc)
    exact ⟨k, hk, hkc⟩
  · intro hcomma
    apply entries_Join
    intro x hx
    rcases List.mem_cons.1 hx with hx | hx
    · subst hx
      decide
    · exact hcomma x hx
  · intro hcanon k
    rw [copyResponseHeader_eq, hcopied, map_canonical_eq_self _ hcanon]

/-- C4 at the example exchange: the value is
`X-Request-URL,Keep-Alive,Set-Cookie,Access-Control-Allow-Origin`. -/
theorem expose_headers_are_the_copied_names_witness :
    exampleUpstream.Header.keys = ["Keep-Alive", "Set-Cookie", "Access-Control-Allow-Origin"] ∧
    ∃ r, handleCORS packageInit (goEnv (always exampleUpstream)) exampleRequest
        = some (.response r) ∧
      r.Header.find "Access-Control-Expose-Headers" =
        some ["X-Request-URL,Keep-Alive,Set-Cookie,Access-Control-Allow-Origin"] ∧
      entries "X-Request-URL,Keep-Alive,Set-Cookie,Access-Control-Allow-Origin" =
        "X-Request-URL" :: exampleUpstream.Header.keys ∧
      (∀ k, k ∈ exampleUpstream.Header.keys ↔
        ((copyResponseHeader packageInit exampleUpstream.Header [] ["X-Request-URL"]).1.find
          k).isSome) ∧
      (∀ k ∈ exampleUpstream.Header.keys, (r.Header.find (CanonicalMIMEHeaderKey k)).isSome) := by
  obtain ⟨r, value, hr, hfind, hvalue, hstored, _, hentries, hiff⟩ :=
    expose_headers_are_the_copied_names packageInit (goEnv (always exampleUpstream))
      exampleRequest _ _ exampleUpstream _ _ (by rfl) (by rfl) (by decide) (by decide)
  have hv : value = "X-Request-URL,Keep-Alive,Set-Cookie,Access-Control-Allow-Origin" := by
    rw [hvalue]
    rfl
  rw [hv] at hfind hentries
  exact ⟨by rfl, r, hr, hfind, hentries (by decide), hiff (by decide),
    fun k hk => (hstored k hk).2⟩

/-! ## One value for each copied header -/

/-- C10, as the code has it: a header the request loop copies reaches the
outbound request with one value, the first of the inbound values; a header
the response loop copies is stored with one value, the first of the
upstream values, and when the response is relayed (its status is one
`w.WriteHeader` accepts) the caller's response carries that value under
every name but the four the handler sets itself after the loop; under
those four it carries the handler's own single value.  The later values are
dropped.  (Names are in canonical form, as `net/http` builds them; in
general the copy of `k` is stored under the canonical form of `k` with the
one value `Get` returns.) -/
theorem copied_header_keeps_first_value_only (g : Globals) (env : Env) (req : Request)
    (u : URL) (nreq : OutRequest)
    (ho : outbound g env req = .ok (u, nreq)) :
    (∀ k ∈ req.Header.keys,
      nreq.Header.find (CanonicalMIMEHeaderKey k) = some [req.Header.Get k]) ∧
    (∀ k v vs, CanonicalMIMEHeaderKey k = k → req.Header.find k = some (v :: vs) →
      nreq.Header.find k = some [v]) ∧
    (∀ resp final calls, Client.Do g env nreq = some (.ok (resp, final), calls) →
      100 ≤ resp.StatusCode → resp.StatusCode ≤ 999 →
      ∃ r, handleCORS g env req = some (.response r) ∧
        (∀ k v vs, CanonicalMIMEHeaderKey k = k → resp.Header.find k = some (v :: vs) →
          (copyResponseHeader g resp.Header [] ["X-Request-URL"]).1.find k = some [v] ∧
          (k ∉ annotationKeys → r.Header.find k = some [v])) ∧
        r.Header.find "Access-Control-Allow-Origin" = some ["*"] ∧
        r.Header.find "Access-Control-Expose-Headers" =
          some [Join ("X-Request-URL" :: resp.Header.keys) ","] ∧
        r.Header.find "X-Request-Url" = some [env.urlString u] ∧
        r.Header.find "X-Final-Url" = some [env.urlString final.URL]) := by
  have hn : nreq.Header = copyRequestHeader g req.Header [] := by
    obtain ⟨p, u0, nreq0, _, _, _, _, hnew, hnreq⟩ := outbound_ok g env req u nreq ho
    obtain ⟨u1, _, h0⟩ := NewRequest_ok env _ _ _ nreq0 hnew
    rw [hnreq, h0]
  refine ⟨?_, ?_, ?_⟩
  · intro k hk
    have hm : CanonicalMIMEHeaderKey k ∈ req.Header.keys.map CanonicalMIMEHeaderKey :=
      List.mem_map_of_mem _ hk
    rw [hn, copyRequestHeader_eq, copyKeys_find, if_pos hm, Header.Get_eq_firstValue]
  · intro k v vs hk hf
    have hm : k ∈ req.Header.keys.map CanonicalMIMEHeaderKey := by
      rw [← hk]
      exact List.mem_map_of_mem _ (Header.mem_keys_of_find _ _ _ hf)
    rw [hn, copyRequestHeader_eq, copyKeys_find, if_pos hm, hf]
    rfl
  · intro resp final calls hd h100 h999
    refine ⟨_, handleCORS_of_valid_status g env req u nreq resp final calls ho hd h100 h999,
      ?_, relayHeader_find_allowOrigin g env u resp final,
      relayHeader_find_exposeHeaders g env u resp final,
      relayHeader_find_requestURL g env u resp final,
      relayHeader_find_finalURL g env u resp final⟩
    intro k v vs hk hf
    have hm : k ∈ resp.Header.keys.map CanonicalMIMEHeaderKey := by
      rw [← hk]
      exact List.mem_map_of_mem _ (Header.mem_keys_of_find _ _ _ hf)
    have hc : (copyKeys resp.Header resp.Header.keys []).find k = some [v] := by
      rw [copyKeys_find, if_pos hm, hf]
      rfl
    refine ⟨by rw [copyResponseHeader_eq]; exact hc, ?_⟩
    intro ha
    show (relayHeader g env u resp final).find k = some [v]
    rw [relayHeader_find_other g env u resp final k ha]
    exact hc

/-- C10 at the example exchange: `Accept` goes out with its first value only,
and of the two `Set-Cookie` values the caller gets the first. -/
theorem copied_header_keeps_first_value_only_witness :
    exampleRequest.Header.find "Accept" = some ["text/html", "text/plain"] ∧
    exampleUpstream.Header.find "Set-Cookie" = some ["a=1", "b=2"] ∧
    (∃ u nreq, outbound packageInit (goEnv (always exampleUpstream)) exampleRequest
        = .ok (u, nreq) ∧ nreq.Header.find "Accept" = some ["text/html"]) ∧
    (∃ r, handleCORS packageInit (goEnv (always exampleUpstream)) exampleRequest
        = some (.response r) ∧
      r.Header.find "Set-Cookie" = some ["a=1"]) := by
  have h := copied_header_keeps_first_value_only packageInit (goEnv (always exampleUpstream))
    exampleRequest _ _ (by rfl)
  obtain ⟨r, hr, hcopy, _⟩ := h.2.2 exampleUpstream _ _ (by rfl) (by decide) (by decide)
  exact ⟨by rfl, by rfl,
    ⟨_, _, rfl, h.2.1 "Accept" "text/html" ["text/plain"] (by decide) (by rfl)⟩,
    ⟨r, hr, (hcopy "Set-Cookie" "a=1" ["b=2"] (by decide) (by rfl)).2 (by decide)⟩⟩

/-- C10 is false as written: the response loop copies the upstream headers
`Access-Control-Allow-Origin`, `Access-Control-Expose-Headers`,
`X-Request-Url` and `X-Final-Url`, and the caller's response carries under
each of these names the value the handler sets after the loop, not the
first upstream value. -/
theorem copied_header_is_overwritten :
    (copyResponseHeader packageInit annotatedUpstream.Header [] ["X-Request-URL"]).1 =
      [("Access-Control-Allow-Origin", ["https://other.example"]),
       ("Access-Control-Expose-Headers", ["Etag"]),
       ("X-Request-Url", ["http://upstream.example/a"]),
       ("X-Final-Url", ["http://upstream.example/b"])] ∧
    ∃ r, handleCORS packageInit (goEnv (always annotatedUpstream)) exampleRequest
        = some (.response r) ∧
      r.Header.find "Access-Control-Allow-Origin" = some ["*"] ∧
      r.Header.find "Access-Control-Expose-Headers" =
        some ["X-Request-URL,Access-Control-Allow-Origin,Access-Control-Expose-Headers,X-Request-Url,X-Final-Url"] ∧
      r.Header.find "X-Request-Url" = some ["http://example.com/path"] ∧
      r.Header.find "X-Final-Url" = some ["http://example.com/path"] :=
  ⟨by rfl, _, rfl, by rfl, by rfl, by rfl, by rfl⟩

/-! ## The redirect limit -/

theorem nextHop_redirectChain (reqs : List OutRequest) (req : OutRequest) :
    ∃ next, Go.nextHop (reqs ++ [req])
      { StatusCode := 302, Header := [("Location", ["http://example.com/next"])] } = .ok next := by
  have hloc : Header.Get [("Location", ["http://example.com/next"])] "Location"
      = "http://example.com/next" := by rfl
  have hparse : Go.Parse "http://example.com/next"
      = .ok { Scheme := "http", Host := "example.com", Path := "/next" } := by rfl
  have hhead : ∃ first, (reqs ++ [req]).head? = some first := by
    cases reqs with
    | nil => exact ⟨req, rfl⟩
    | cons a t => exact ⟨a, rfl⟩
  obtain ⟨first, hfirst⟩ := hhead
  have hlast : (reqs ++ [req]).getLast? = some req := by simp
  unfold Go.nextHop
  simp only [hfirst, hlast, hloc, hparse]
  exact ⟨_, rfl⟩

/-- The redirect loop on a chain of `k` redirects, from the point where
`reqs` have been sent: the final response comes back if no redirect is left
or `k < maxRedirects`, and an error otherwise. -/
theorem doLoop_redirectChain (g : Globals) (k : Nat) :
    ∀ (fuel : Nat) (reqs : List OutRequest) (req : OutRequest),
      reqs.length ≤ k → 1 ≤ fuel → g.maxRedirects.toNat + 1 ≤ fuel + reqs.length →
      ∃ e calls, Client.doLoop (goEnv (redirectChain k)) (CheckRedirect g) fuel reqs req
          = some (e, calls) ∧
        ((reqs.length = k ∨ (k : Int) < g.maxRedirects) →
          ∃ final, e = .ok ({ StatusCode := 200, Body := "done" }, final)) ∧
        (¬ (reqs.length = k ∨ (k : Int) < g.maxRedirects) → ∃ err, e = .error err) := by
  intro fuel
  induction fuel with
  | zero => intro _ _ _ h; omega
  | succ n ih =>
    intro reqs req hle _ hfuel
    unfold Client.doLoop
    by_cases hk : reqs.length < k
    · have hs : (goEnv (redirectChain k)).send reqs req =
          .response { StatusCode := 302, Header := [("Location", ["http://example.com/next"])] }
            true := by
        simp [goEnv, redirectChain, hk]
      obtain ⟨next, hnext⟩ := nextHop_redirectChain reqs req
      have hn : (goEnv (redirectChain k)).nextHop (reqs ++ [req])
          { StatusCode := 302, Header := [("Location", ["http://example.com/next"])] }
          = .ok next := hnext
      have hl : (reqs ++ [req]).length = reqs.length + 1 := by simp
      simp only [hs, hn]
      by_cases hc : ((reqs ++ [req]).length : Int) ≥ g.maxRedirects
      · have hchk : CheckRedirect g next (reqs ++ [req]) = some "stopped after 10 redirects" := by
          unfold CheckRedirect
          rw [if_pos hc]
        simp only [hchk]
        refine ⟨_, _, rfl, ?_, ?_⟩
        · intro h
          rw [hl] at hc
          rcases h with h | h <;> omega
        · intro _
          exact ⟨_, rfl⟩
      · have hchk : CheckRedirect g next (reqs ++ [req]) = none := by
          unfold CheckRedirect
          rw [if_neg hc]
        simp only [hchk]
        rw [hl] at hc
        obtain ⟨e, calls, hrun, hok, herr⟩ :=
          ih (reqs ++ [req]) next (by rw [hl]; omega) (by omega) (by rw [hl]; omega)
        refine ⟨e, calls, hrun, ?_, ?_⟩
        · intro h
          have h' : (reqs ++ [req]).length = k ∨ (k : Int) < g.maxRedirects := by
            rcases h with h | h
            · omega
            · exact Or.inr h
          exact hok h'
        · intro h
          apply herr
          rw [hl]
          intro h'
          apply h
          rcases h' with h' | h'
          · right; omega
          · exact Or.inr h'
    · have hs : (goEnv (redirectChain k)).send reqs req =
          .response { StatusCode := 200, Body := "done" } false := by
        simp [goEnv, redirectChain, hk]
      simp only [hs]
      refine ⟨_, _, rfl, ?_, ?_⟩
      · intro _
        exact ⟨_, rfl⟩
      · intro h
        exact absurd (Or.inl (by omega)) h

/-- What the redirect policy does with a chain of `k` redirects when the
process runs with `--max-redirects m`: the final response is relayed if
`k = 0` or `k < m`, and the answer is status 500 otherwise, so a chain of
exactly `m` redirects (`m ≥ 1`) is not followed. -/
theorem redirect_chain_followed_iff (k : Nat) (m : Int) :
    ∃ r, handleCORS (redirectGlobals m) (goEnv (redirectChain k)) exampleRequest
        = some (.response r) ∧
      ((k = 0 ∨ (k : Int) < m) → r.StatusCode = 200 ∧ r.Body = "done") ∧
      (¬ (k = 0 ∨ (k : Int) < m) → r.StatusCode = 500) := by
  obtain ⟨u, nreq, ho⟩ : ∃ u nreq,
      outbound (redirectGlobals m) (goEnv (redirectChain k)) exampleRequest = .ok (u, nreq) :=
    ⟨_, _, rfl⟩
  have hm : (redirectGlobals m).maxRedirects = m := rfl
  obtain ⟨e, calls, hrun, hok, herr⟩ :=
    doLoop_redirectChain (redirectGlobals m) k ((redirectGlobals m).maxRedirects.toNat + 1) []
      nreq (Nat.zero_le _) (by omega) (by simp)
  have hd : Client.Do (redirectGlobals m) (goEnv (redirectChain k)) nreq = some (e, calls) := hrun
  rw [hm] at hok herr
  by_cases hc : k = 0 ∨ (k : Int) < m
  · have hc' : ([] : List OutRequest).length = k ∨ (k : Int) < m := by
      rcases hc with hc | hc
      · left; simp [hc]
      · exact Or.inr hc
    obtain ⟨final, he⟩ := hok hc'
    rw [he] at hd
    refine ⟨_, handleCORS_of_valid_status _ _ _ u nreq _ final calls ho hd (by decide)
      (by decide), ?_, ?_⟩
    · intro _
      exact ⟨rfl, rfl⟩
    · intro h
      exact absurd hc h
  · have hc' : ¬ (([] : List OutRequest).length = k ∨ (k : Int) < m) := by
      intro h
      apply hc
      rcases h with h | h
      · left; simpa using h.symm
      · exact Or.inr h
    obtain ⟨err, he⟩ := herr hc'
    rw [he] at hd
    refine ⟨_, handleCORS_of_failure _ _ _ u nreq err calls ho hd, ?_, ?_⟩
    · intro h
      exact absurd h hc
    · intro _
      rfl

/-- C6 fails on the code: with the default `maxRedirects = 10`, a target that
redirects nine times is followed and relayed, and a target that redirects
exactly ten times is answered with status 500 after ten requests. -/
theorem ten_redirects_are_not_followed :
    packageInit.maxRedirects = 10 ∧
    (∃ r, handleCORS packageInit (goEnv (redirectChain 9)) exampleRequest
        = some (.response r) ∧
      r.StatusCode = 200 ∧ r.Body = "done" ∧ r.calls.length = 10) ∧
    (∃ r, handleCORS packageInit (goEnv (redirectChain 10)) exampleRequest
        = some (.response r) ∧
      r.StatusCode = 500 ∧
      r.Body = "Error: Get \"http://example.com/next\": stopped after 10 redirects" ∧
      r.calls.length = 10) :=
  ⟨rfl, ⟨_, rfl, by rfl, by rfl, by rfl⟩, ⟨_, rfl, by rfl, by rfl, by rfl⟩⟩

/-! ## The default scheme: `net/url` on a plain target -/

theorem Go.cut_cons (sep c : Char) (cs : List Char) :
    Go.cut sep (c :: cs) =
      if c = sep then ([], cs, true)
      else (c :: (Go.cut sep cs).1, (Go.cut sep cs).2.1, (Go.cut sep cs).2.2) := by
  rw [Go.cut]

theorem Go.cut_of_not_mem (sep : Char) (l : List Char) (h : sep ∉ l) :
    Go.cut sep l = (l, [], false) := by
  induction l with
  | nil => rfl
  | cons c cs ih =>
    have hc : c ≠ sep := fun e => h (by simp [e])
    have hcs : sep ∉ cs := fun e => h (by simp [e])
    rw [Go.cut_cons, if_neg hc, ih hcs]

theorem Go.cut_fst_not_mem (sep : Char) (l : List Char) : sep ∉ (Go.cut sep l).1 := by
  induction l with
  | nil => simp [Go.cut]
  | cons c cs ih =>
    rw [Go.cut_cons]
    by_cases hc : c = sep
    · simp [hc]
    · rw [if_neg hc]
      simp only [List.mem_cons, not_or]
      exact ⟨fun e => hc e.symm, ih⟩

/-- The text is the part before the separator and, when there is one, the
separator and the part after it. -/
theorem Go.cut_append (sep : Char) (l : List Char) :
    (Go.cut sep l).1 ++ (if (Go.cut sep l).2.2 = true then sep :: (Go.cut sep l).2.1 else [])
      = l := by
  induction l with
  | nil => simp [Go.cut]
  | cons c cs ih =>
    rw [Go.cut_cons]
    by_cases hc : c = sep
    · simp [hc]
    · rw [if_neg hc]
      simp only [List.cons_append]
      rw [ih]

theorem Go.cut_snd_of_not_found (sep : Char) (l : List Char)
    (h : (Go.cut sep l).2.2 = false) : (Go.cut sep l).2.1 = [] := by
  induction l with
  | nil => simp [Go.cut]
  | cons c cs ih =>
    rw [Go.cut_cons] at h ⊢
    by_cases hc : c = sep
    · simp [hc] at h
    · rw [if_neg hc] at h ⊢
      exact ih h

theorem Go.cut_fst_head (sep : Char) (l : List Char) (h : l.head? ≠ some sep) :
    (Go.cut sep l).1.head? = l.head? := by
  cases l with
  | nil => simp [Go.cut]
  | cons c cs =>
    have hc : c ≠ sep := fun e => h (by simp [e])
    rw [Go.cut_cons, if_neg hc]
    rfl

/-- A lone `?` at the end is where `cut` finds it. -/
theorem Go.cut_of_lone_last (l : List Char) (hl : l.getLast? = some '?')
    (hc : l.count '?' = 1) : Go.cut '?' l = (l.dropLast, [], true) := by
  induction l with
  | nil => simp at hl
  | cons c cs ih =>
    cases cs with
    | nil =>
      have hq : c = '?' := by simpa using hl
      simp [Go.cut_cons, hq]
    | cons d ds =>
      have hl' : (d :: ds).getLast? = some '?' := by
        simpa [List.getLast?_cons_cons] using hl
      have hpos : 0 < (d :: ds).count '?' := by
        rw [List.count_pos_iff]
        exact List.mem_of_getLast?_eq_some hl'
      have hne : c ≠ '?' := by
        intro e
        rw [e, List.count_cons_self] at hc
        omega
      have hc' : (d :: ds).count '?' = 1 := by
        rw [List.count_cons_of_ne (Ne.symm hne)] at hc
        exact hc
      rw [Go.cut_cons, if_neg hne, ih hl' hc']
      simp

theorem Go.splitQuery_eq (l : List Char) :
    Go.splitQuery l =
      ((Go.cut '?' l).1, (Go.cut '?' l).2.1,
        decide (l.getLast? = some '?' ∧ l.count '?' = 1)) := by
  unfold Go.splitQuery
  by_cases h : l.getLast? = some '?' ∧ l.count '?' = 1
  · rw [if_pos h, Go.cut_of_lone_last l h.1 h.2]
    simp [h]
  · rw [if_neg h]
    simp [h]

theorem Go.getSchemeLoop_no_scheme (rawURL : List Char) :
    ∀ (cs seen rest : List Char),
      Go.getSchemeLoop rawURL seen cs = .ok ([], rest) → rest = rawURL := by
  intro cs
  induction cs with
  | nil =>
    intro seen rest h
    simp only [Go.getSchemeLoop] at h
    cases h
    rfl
  | cons c cs ih =>
    intro seen rest h
    simp only [Go.getSchemeLoop] at h
    split at h
    · exact ih _ _ h
    · split at h
      · split at h
        · cases h
          rfl
        · exact ih _ _ h
      · split at h
        · split at h
          · cases h
          · rename_i hseen
            cases h
            exact absurd rfl hseen
        · cases h
          rfl

theorem Go.parseAfterScheme_scheme (scheme rest : List Char) (url : URL)
    (h : Go.parseAfterScheme scheme rest = .ok url) : url.Scheme = ⟨scheme⟩ := by
  unfold Go.parseAfterScheme at h
  simp only at h
  split at h
  · cases h
    rfl
  · split at h
    · cases h
    · split at h
      · split at h
        · cases h
          rfl
        · cases h
      · split at h
        · cases h
          rfl
        · cases h
          rfl

theorem Go.head_before_query (l : List Char) (hhead : l.head? ≠ some '/') :
    (Go.cut '?' l).1.head? ≠ some '/' := by
  cases l with
  | nil => simp [Go.cut]
  | cons c cs =>
    rw [Go.cut_cons]
    by_cases hc : c = '?'
    · simp [hc]
    · rw [if_neg hc]
      simpa using hhead

/-- What `parse` makes of a text without a scheme that does not start with a
slash: an error when the first segment holds a colon, and otherwise a URL
with the text before the query as its path. -/
theorem Go.parseAfterScheme_no_scheme (l : List Char) (hhead : l.head? ≠ some '/') :
    Go.parseAfterScheme [] l =
      if (Go.cut '/' (Go.cut '?' l).1).1.contains ':' = true then
        .error "first path segment in URL cannot contain colon"
      else
        .ok { Path := ⟨(Go.cut '?' l).1⟩, RawQuery := ⟨(Go.cut '?' l).2.1⟩
              ForceQuery := decide (l.getLast? = some '?' ∧ l.count '?' = 1) } := by
  have ha := Go.head_before_query l hhead
  have htake : (Go.cut '?' l).1.take 2 ≠ ['/', '/'] := by
    intro h
    apply ha
    cases hl : (Go.cut '?' l).1 with
    | nil => rw [hl] at h; simp at h
    | cons c cs =>
      rw [hl] at h
      cases cs with
      | nil => simp at h
      | cons d ds =>
        simp at h
        simp [h.1]
  unfold Go.parseAfterScheme
  simp only [Go.splitQuery_eq]
  rw [if_neg (fun h => h.2 rfl)]
  by_cases hcolon : (Go.cut '/' (Go.cut '?' l).1).1.contains ':' = true
  · rw [if_pos ⟨ha, hcolon⟩, if_pos hcolon]
  · rw [if_neg (fun h => hcolon h.2), if_neg (fun h => htake h.2), if_neg (fun h => h.1 rfl),
      if_neg hcolon]

theorem plainChar_hash : plainChar '#' = false := by decide

theorem plainChar_star : plainChar '*' = false := by decide

theorem plainTarget_no_hash (p : String) (hp : plainTarget p = true) : '#' ∉ p.data := by
  intro h
  unfold plainTarget at hp
  rw [List.all_eq_true] at hp
  have := hp '#' h
  rw [plainChar_hash] at this
  cases this

theorem plainTarget_ne_star (p : String) (hp : plainTarget p = true) : p.data ≠ ['*'] := by
  intro h
  unfold plainTarget at hp
  rw [h] at hp
  revert hp
  decide

/-- What `url.Parse` makes of a plain target that does not start with a slash
when it accepts it without a scheme: the target has no control character,
its first segment holds no colon, and the URL has the text before the query
as its path and nothing but the query besides. -/
theorem Go.Parse_no_scheme (p : String) (u0 : URL) (hplain : plainTarget p = true)
    (hhead : p.data.head? ≠ some '/') (hp : Go.Parse p = .ok u0) (hs : u0.Scheme = "") :
    Go.hasCTLByte p.data = false ∧
    (Go.cut '/' (Go.cut '?' p.data).1).1.contains ':' = false ∧
    u0 = { Path := ⟨(Go.cut '?' p.data).1⟩, RawQuery := ⟨(Go.cut '?' p.data).2.1⟩
           ForceQuery := decide (p.data.getLast? = some '?' ∧ p.data.count '?' = 1) } := by
  have hcut : Go.cut '#' p.data = (p.data, [], false) :=
    Go.cut_of_not_mem _ _ (plainTarget_no_hash p hplain)
  unfold Go.Parse at hp
  simp only [hcut] at hp
  cases hpn : Go.parseNoFragment p.data with
  | error e =>
    rw [hpn] at hp
    cases hp
  | ok url =>
    rw [hpn] at hp
    have hu0 : u0 = { url with Fragment := ⟨[]⟩ } := by
      cases hp
      rfl
    unfold Go.parseNoFragment at hpn
    by_cases hctl : Go.hasCTLByte p.data = true
    · rw [if_pos hctl] at hpn
      cases hpn
    · rw [if_neg hctl, if_neg (plainTarget_ne_star p hplain)] at hpn
      cases hgs : Go.getScheme p.data with
      | error e =>
        rw [hgs] at hpn
        cases hpn
      | ok sr =>
        obtain ⟨scheme, rest⟩ := sr
        rw [hgs] at hpn
        simp only at hpn
        have hsch := Go.parseAfterScheme_scheme _ _ _ hpn
        have hnil : scheme = [] := by
          have h1 : url.Scheme = "" := by
            rw [hu0] at hs
            exact hs
          rw [hsch] at h1
          have h2 : scheme.map Char.toLower = [] := congrArg String.data h1
          simpa using h2
        subst hnil
        have hrest : rest = p.data := Go.getSchemeLoop_no_scheme _ _ _ _ hgs
        subst hrest
        have hmap : List.map Char.toLower ([] : List Char) = [] := rfl
        rw [hmap, Go.parseAfterScheme_no_scheme _ hhead] at hpn
        by_cases hcolon : (Go.cut '/' (Go.cut '?' p.data).1).1.contains ':' = true
        · rw [if_pos hcolon] at hpn
          cases hpn
        · rw [if_neg hcolon] at hpn
          refine ⟨by simpa using hctl, by simpa using hcolon, ?_⟩
          rw [hu0]
          cases hpn
          rfl

/-- The text before the query and the query, put together as `(*URL).String`
does, give the text back. -/
theorem Go.query_append (l : List Char) :
    (Go.cut '?' l).1 ++
      (if decide (l.getLast? = some '?' ∧ l.count '?' = 1) = true ∨ (Go.cut '?' l).2.1 ≠ []
        then '?' :: (Go.cut '?' l).2.1 else []) = l := by
  have happ := Go.cut_append '?' l
  have hnot := Go.cut_fst_not_mem '?' l
  cases hf : (Go.cut '?' l).2.2 with
  | true =>
    rw [hf] at happ
    simp only [if_true] at happ
    by_cases hq : (Go.cut '?' l).2.1 = []
    · have hl : l = (Go.cut '?' l).1 ++ ['?'] := by
        rw [hq] at happ
        exact happ.symm
      have hlast : l.getLast? = some '?' := by
        rw [hl]
        simp
      have hcount : l.count '?' = 1 := by
        rw [hl, List.count_append, List.count_eq_zero_of_not_mem hnot]
        simp
      rw [if_pos (Or.inl (by simp [hlast, hcount]))]
      exact happ
    · rw [if_pos (Or.inr hq)]
      exact happ
  | false =>
    rw [hf] at happ
    have hq := Go.cut_snd_of_not_found '?' l hf
    have hl : l = (Go.cut '?' l).1 := by simpa using happ.symm
    have hcount : l.count '?' ≠ 1 := by
      rw [hl, List.count_eq_zero_of_not_mem hnot]
      decide
    have hcond : ¬ (decide (l.getLast? = some '?' ∧ l.count '?' = 1) = true ∨
        (Go.cut '?' l).2.1 ≠ []) := by
      intro h
      rcases h with h | h
      · exact hcount (of_decide_eq_true h).2
      · exact h hq
    rw [if_neg hcond]
    simpa using happ

/-- The string of a URL with the scheme `http`, no host, a path and a query. -/
theorem Go.URLString_http_path (a q : List Char) (f : Bool) (ha : a ≠ []) :
    Go.URLString { Scheme := "http", Path := ⟨a⟩, RawQuery := ⟨q⟩, ForceQuery := f } =
      ⟨'h' :: 't' :: 't' :: 'p' :: ':' :: '/' :: '/' ::
        (a ++ (if f = true ∨ q ≠ [] then '?' :: q else []))⟩ := by
  have hP : (⟨a⟩ : String) ≠ "" := fun h => ha (congrArg String.data h)
  have hQ : ((⟨q⟩ : String) ≠ "") ↔ q ≠ [] := by
    constructor
    · intro h e
      exact h (by rw [e])
    · intro h e
      exact h (congrArg String.data e)
  have hS : ("http" : String) ≠ "" := by decide
  unfold Go.URLString
  simp only [hS, hP, hQ, ne_eq, not_false_eq_true, not_true_eq_false, if_true, if_false,
    true_or, or_true, true_and, and_true, false_and, and_false, Option.isSome_none,
    Option.isNone_none, Bool.false_eq_true, or_false, false_or]
  apply String.ext
  by_cases hq : f = true ∨ q ≠ []
  · simp [hq, String.data_append]
  · simp [hq, String.data_append]

theorem Go.portPart_of_no_colon (host : List Char) (h : ':' ∉ host) : Go.portPart host = [] := by
  unfold Go.portPart
  rw [Go.cut_of_not_mem ':' host.reverse (by simpa using h)]

theorem Go.lone_query_after_slashes (l : List Char) (hl : l ≠ []) :
    decide (('/' :: '/' :: l).getLast? = some '?' ∧ ('/' :: '/' :: l).count '?' = 1) =
      decide (l.getLast? = some '?' ∧ l.count '?' = 1) := by
  have h1 : ('/' :: '/' :: l).getLast? = l.getLast? := by
    cases l with
    | nil => exact absurd rfl hl
    | cons c cs => simp [List.getLast?_cons_cons]
  have h2 : ('/' :: '/' :: l).count '?' = l.count '?' := by
    rw [List.count_cons_of_ne (by decide), List.count_cons_of_ne (by decide)]
  rw [h1, h2]

/-- What `url.Parse` makes of `http://` followed by a text that has a
first segment without a colon: the segment is the host, what follows it the
path, and the query is the query of the text. -/
theorem Go.Parse_http (l : List Char) (hhash : '#' ∉ l) (hctl : Go.hasCTLByte l = false)
    (hne : (Go.cut '?' l).1 ≠ [])
    (hcolon : (Go.cut '/' (Go.cut '?' l).1).1.contains ':' = false) :
    Go.Parse ⟨'h' :: 't' :: 't' :: 'p' :: ':' :: '/' :: '/' :: l⟩ =
      .ok { Scheme := "http"
            Host := ⟨(Go.cut '/' (Go.cut '?' l).1).1⟩
            Path := ⟨if (Go.cut '/' (Go.cut '?' l).1).2.2 = true
                       then '/' :: (Go.cut '/' (Go.cut '?' l).1).2.1
                       else (Go.cut '/' (Go.cut '?' l).1).2.1⟩
            RawQuery := ⟨(Go.cut '?' l).2.1⟩
            ForceQuery := decide (l.getLast? = some '?' ∧ l.count '?' = 1) } := by
  have hl : l ≠ [] := by
    intro e
    rw [e] at hne
    exact hne rfl
  have hcut : Go.cut '#' ('h' :: 't' :: 't' :: 'p' :: ':' :: '/' :: '/' :: l) =
      ('h' :: 't' :: 't' :: 'p' :: ':' :: '/' :: '/' :: l, [], false) := by
    apply Go.cut_of_not_mem
    simp only [List.mem_cons, not_or]
    exact ⟨by decide, by decide, by decide, by decide, by decide, by decide, by decide, hhash⟩
  have hctl' : Go.hasCTLByte ('h' :: 't' :: 't' :: 'p' :: ':' :: '/' :: '/' :: l) = false := by
    unfold Go.hasCTLByte at hctl ⊢
    simp only [List.any_cons, hctl, Bool.or_false]
    decide
  have hstar : ('h' :: 't' :: 't' :: 'p' :: ':' :: '/' :: '/' :: l) ≠ ['*'] := by
    intro h
    cases h
  have hgs : Go.getScheme ('h' :: 't' :: 't' :: 'p' :: ':' :: '/' :: '/' :: l) =
      .ok (['h', 't', 't', 'p'], '/' :: '/' :: l) := rfl
  have hlow : List.map Char.toLower ['h', 't', 't', 'p'] = ['h', 't', 't', 'p'] := by decide
  have hq : Go.cut '?' ('/' :: '/' :: l) =
      ('/' :: '/' :: (Go.cut '?' l).1, (Go.cut '?' l).2.1, (Go.cut '?' l).2.2) := by
    rw [Go.cut_cons, if_neg (by decide), Go.cut_cons, if_neg (by decide)]
  have hport : Go.validOptionalPort (Go.portPart (Go.cut '/' (Go.cut '?' l).1).1) = true := by
    rw [Go.portPart_of_no_colon _ (by simpa using hcolon)]
    rfl
  unfold Go.Parse
  simp only [hcut]
  unfold Go.parseNoFragment
  rw [if_neg (by simp [hctl']), if_neg hstar, hgs]
  simp only [hlow]
  unfold Go.parseAfterScheme
  simp only [Go.splitQuery_eq, hq, Go.lone_query_after_slashes l hl]
  rw [if_neg (fun h => h.1 rfl), if_neg (fun h => h.1 rfl),
    if_pos ⟨Or.inl (by decide), rfl⟩]
  simp only [List.drop_succ_cons, List.drop_zero]
  rw [if_pos hport]

/-- A URL with a host and a path that starts with a slash or is empty is
written as scheme, `//`, host, path and query. -/
theorem Go.URLString_http_host (seg path q : List Char) (f : Bool) (hseg : seg ≠ [])
    (hpath : path = [] ∨ path.head? = some '/') :
    Go.URLString { Scheme := "http", Host := ⟨seg⟩, Path := ⟨path⟩, RawQuery := ⟨q⟩
                   ForceQuery := f } =
      ⟨'h' :: 't' :: 't' :: 'p' :: ':' :: '/' :: '/' ::
        (seg ++ path ++ (if f = true ∨ q ≠ [] then '?' :: q else []))⟩ := by
  have hH : (⟨seg⟩ : String) ≠ "" := fun h => hseg (congrArg String.data h)
  have hQ : ((⟨q⟩ : String) ≠ "") ↔ q ≠ [] := by
    constructor
    · intro h e
      exact h (by rw [e])
    · intro h e
      exact h (congrArg String.data e)
  have hS : ("http" : String) ≠ "" := by decide
  have hsep : ¬ ((⟨path⟩ : String) ≠ "" ∧ (⟨path⟩ : String).data.head? ≠ some '/' ∧
      (⟨seg⟩ : String) ≠ "") := by
    intro h
    rcases hpath with hp | hp
    · exact h.1 (by rw [hp])
    · exact h.2.1 hp
  unfold Go.URLString
  simp only [hS, hH, hQ, hsep, ne_eq, not_false_eq_true, not_true_eq_false, if_true, if_false,
    true_or, or_true, true_and, and_true, false_and, and_false, Option.isSome_none,
    Option.isNone_none, Bool.false_eq_true, or_false, false_or]
  have hsep2 : ¬ (¬ (⟨path⟩ : String) = "" ∧ ¬ path.head? = some '/') := by
    intro h
    rcases hpath with hp | hp
    · exact h.1 (by rw [hp])
    · exact h.2 hp
  have hne : ∀ x : String, ¬ ("http:" ++ x = "") := by
    intro x h
    have hd := congrArg String.data h
    rw [String.data_append] at hd
    cases hd
  apply String.ext
  by_cases hq : f = true ∨ q ≠ []
  · simp [hq, String.data_append, hsep2, hne]
  · simp [hq, String.data_append, hsep2, hne]

theorem dropWhile_slash_head (l : List Char) :
    (l.dropWhile (fun c => c == '/')).head? ≠ some '/' := by
  induction l with
  | nil => simp
  | cons c cs ih =>
    by_cases hc : c = '/'
    · simpa [List.dropWhile_cons, hc] using ih
    · simp [List.dropWhile_cons, hc]

/-- A target does not start with a slash. -/
theorem target_head (req : Request) (p : String) (ht : target req = some p) :
    p.data.head? ≠ some '/' := by
  have hne : TrimLeft req.Path "/" ≠ "" := by
    intro h
    rw [(target_eq_none_iff req).2 h] at ht
    cases ht
  have hd : (TrimLeft req.Path "/").data ≠ [] := by
    intro h
    apply hne
    apply String.ext
    rw [h]
  have hh : (TrimLeft req.Path "/").data.head? ≠ some '/' := by
    rw [TrimLeft_slash]
    exact dropWhile_slash_head _
  have hstart : ∃ t, p.data = (TrimLeft req.Path "/").data ++ t := by
    unfold target at ht
    simp only [hne, if_false] at ht
    by_cases hq : req.RawQuery = ""
    · simp only [hq, ne_eq, not_true_eq_false, if_false] at ht
      cases ht
      exact ⟨[], by simp⟩
    · simp only [hq, ne_eq, not_false_eq_true, if_true] at ht
      cases ht
      exact ⟨"?".data ++ req.RawQuery.data, by simp [String.data_append]⟩
  obtain ⟨t, ht'⟩ := hstart
  rw [ht']
  cases hl : (TrimLeft req.Path "/").data with
  | nil => exact absurd hl hd
  | cons c cs =>
    rw [hl] at hh
    simpa using hh

theorem removeEmptyPort_of_no_colon (seg : List Char) (h : ':' ∉ seg) :
    removeEmptyPort ⟨seg⟩ = ⟨seg⟩ := by
  unfold removeEmptyPort
  have hl : seg.getLast? ≠ some ':' := fun e => h (List.mem_of_getLast?_eq_some e)
  simp [hl]

theorem http_prepended (p : String) :
    (⟨'h' :: 't' :: 't' :: 'p' :: ':' :: '/' :: '/' :: p.data⟩ : String) = "http://" ++ p := by
  apply String.ext
  rw [String.data_append]
  rfl

theorem doLoop_calls (env : Env)
    (check : OutRequest → List OutRequest → Option String) :
    ∀ (fuel : Nat) (reqs : List OutRequest) (req : OutRequest)
      (e : Except String (Response × OutRequest)) (calls : List OutRequest),
      Client.doLoop env check fuel reqs req = some (e, calls) →
      ∃ rest, calls = reqs ++ req :: rest := by
  intro fuel
  induction fuel with
  | zero => intro reqs req e calls h; simp [Client.doLoop] at h
  | succ n ih =>
    intro reqs req e calls h
    unfold Client.doLoop at h
    cases hs : env.send reqs req with
    | failure err =>
      simp only [hs] at h
      cases h
      exact ⟨[], by simp⟩
    | response resp b =>
      cases b with
      | false =>
        simp only [hs] at h
        cases h
        exact ⟨[], by simp⟩
      | true =>
        simp only [hs] at h
        cases hn : env.nextHop (reqs ++ [req]) resp with
        | error err =>
          simp only [hn] at h
          cases h
          exact ⟨[], by simp⟩
        | ok next =>
          simp only [hn] at h
          cases hc : check next (reqs ++ [req]) with
          | some err =>
            simp only [hc] at h
            cases h
            exact ⟨[], by simp⟩
          | none =>
            simp only [hc] at h
            obtain ⟨rest, hrest⟩ := ih (reqs ++ [req]) next e calls h
            exact ⟨next :: rest, by rw [hrest]; simp⟩

/-- The first request the client sends is the request it was given. -/
theorem Do_calls_head (g : Globals) (env : Env) (nreq : OutRequest)
    (e : Except String (Response × OutRequest)) (calls : List OutRequest)
    (hd : Client.Do g env nreq = some (e, calls)) : calls.head? = some nreq := by
  obtain ⟨rest, hrest⟩ := doLoop_calls env (CheckRedirect g) _ [] nreq e calls hd
  rw [hrest]
  rfl

theorem outbound_of_parsed (g : Globals) (env : Env) (req : Request) (p : String) (u0 : URL)
    (ht : target req = some p)
    (hg : req.Header.Get "Origin" ≠ "" ∨ req.Header.Get "X-Requested-With" ≠ "")
    (hp : env.parse p = .ok u0) :
    outbound g env req =
      match NewRequest env req.Method
          (env.urlString (if u0.Scheme = "" then { u0 with Scheme := "http" } else u0))
          req.Body with
      | .error err => .error (errorResult err [])
      | .ok nreq =>
        .ok (if u0.Scheme = "" then { u0 with Scheme := "http" } else u0,
             { nreq with Header := copyRequestHeader g req.Header nreq.Header }) := by
  have hg' : ¬ (req.Header.Get "Origin" = "" ∧ req.Header.Get "X-Requested-With" = "") := by
    intro h
    rcases hg with hg | hg
    · exact hg h.1
    · exact hg h.2
  unfold outbound
  simp only [ht, hp, if_neg hg']

theorem outbound_of_rejected (g : Globals) (env : Env) (req : Request) (p err : String)
    (ht : target req = some p)
    (hg : req.Header.Get "Origin" ≠ "" ∨ req.Header.Get "X-Requested-With" ≠ "")
    (hp : env.parse p = .error err) :
    outbound g env req = .error (errorResult err []) := by
  have hg' : ¬ (req.Header.Get "Origin" = "" ∧ req.Header.Get "X-Requested-With" = "") := by
    intro h
    rcases hg with hg | hg
    · exact hg h.1
    · exact hg h.2
  unfold outbound
  simp only [ht, hp, if_neg hg']

/-- What the handler does, on top of `net/url`, with a guarded request whose
target is written in plain characters, has a first segment and is accepted
by `url.Parse` without a scheme: the first request sent has the scheme
`http`, the first segment of the target as its host and `http://` followed
by the target as its string, and the relayed response reports that string
as `X-Request-URL`. -/
theorem handleCORS_plain_target (g : Globals) (send : List OutRequest → OutRequest → Reply)
    (req : Request) (p : String) (u0 : URL)
    (ht : target req = some p)
    (hg : req.Header.Get "Origin" ≠ "" ∨ req.Header.Get "X-Requested-With" ≠ "")
    (hm : Go.validMethod req.Method = true) (hplain : plainTarget p = true)
    (hseg : firstSegment p ≠ "") (hp : Go.Parse p = .ok u0) (hs : u0.Scheme = "") :
    ∃ o nreq, handleCORS g (goEnv send) req = some o ∧ o.calls.head? = some nreq ∧
      nreq.URL.Scheme = "http" ∧ nreq.URL.Host = firstSegment p ∧
      Go.URLString nreq.URL = "http://" ++ p ∧
      (∀ resp final calls,
        Client.Do g (goEnv send) nreq = some (.ok (resp, final), calls) →
        100 ≤ resp.StatusCode → resp.StatusCode ≤ 999 →
        ∃ r, o = .response r ∧ r.Header.find "X-Request-Url" = some ["http://" ++ p]) := by
  have hhead := target_head req p ht
  obtain ⟨hctl, hcolon, hu0⟩ := Go.Parse_no_scheme p u0 hplain hhead hp hs
  have hhash := plainTarget_no_hash p hplain
  have hsegne : (Go.cut '/' (Go.cut '?' p.data).1).1 ≠ [] := by
    intro h
    apply hseg
    unfold firstSegment
    rw [h]
  have ha : (Go.cut '?' p.data).1 ≠ [] := by
    intro h
    rw [h] at hsegne
    exact hsegne rfl
  have hnocolon : ':' ∉ (Go.cut '/' (Go.cut '?' p.data).1).1 := by simpa using hcolon
  have hu : (if u0.Scheme = "" then { u0 with Scheme := "http" } else u0) =
      { Scheme := "http", Path := ⟨(Go.cut '?' p.data).1⟩
        RawQuery := ⟨(Go.cut '?' p.data).2.1⟩
        ForceQuery := decide (p.data.getLast? = some '?' ∧ p.data.count '?' = 1) } := by
    rw [if_pos hs, hu0]
  have hstr :
      Go.URLString
        { Scheme := "http", Path := ⟨(Go.cut '?' p.data).1⟩
          RawQuery := ⟨(Go.cut '?' p.data).2.1⟩
          ForceQuery := decide (p.data.getLast? = some '?' ∧ p.data.count '?' = 1) } =
      "http://" ++ p := by
    rw [Go.URLString_http_path _ _ _ ha, Go.query_append, http_prepended]
  have hparse := Go.Parse_http p.data hhash hctl ha hcolon
  rw [http_prepended] at hparse
  have hmne : req.Method ≠ "" := by
    intro h
    rw [h] at hm
    revert hm
    decide
  have hnew : NewRequest (goEnv send) req.Method ("http://" ++ p) req.Body =
      .ok { Method := req.Method
            URL := { Scheme := "http"
                     Host := ⟨(Go.cut '/' (Go.cut '?' p.data).1).1⟩
                     Path := ⟨if (Go.cut '/' (Go.cut '?' p.data).1).2.2 = true
                                then '/' :: (Go.cut '/' (Go.cut '?' p.data).1).2.1
                                else (Go.cut '/' (Go.cut '?' p.data).1).2.1⟩
                     RawQuery := ⟨(Go.cut '?' p.data).2.1⟩
                     ForceQuery :=
                       decide (p.data.getLast? = some '?' ∧ p.data.count '?' = 1) }
            Header := [], Body := req.Body } := by
    unfold NewRequest
    simp only [goEnv, if_neg hmne, hm, hparse, Bool.not_true, Bool.false_eq_true, if_false,
      removeEmptyPort_of_no_colon _ hnocolon]
  have ho := outbound_of_parsed g (goEnv send) req p u0 ht hg hp
  rw [hu] at ho
  have hus :
      (goEnv send).urlString
        { Scheme := "http", Path := ⟨(Go.cut '?' p.data).1⟩
          RawQuery := ⟨(Go.cut '?' p.data).2.1⟩
          ForceQuery := decide (p.data.getLast? = some '?' ∧ p.data.count '?' = 1) } =
      "http://" ++ p := hstr
  rw [hus, hnew] at ho
  simp only at ho
  have hpath : (if (Go.cut '/' (Go.cut '?' p.data).1).2.2 = true
        then '/' :: (Go.cut '/' (Go.cut '?' p.data).1).2.1
        else (Go.cut '/' (Go.cut '?' p.data).1).2.1) = [] ∨
      (if (Go.cut '/' (Go.cut '?' p.data).1).2.2 = true
        then '/' :: (Go.cut '/' (Go.cut '?' p.data).1).2.1
        else (Go.cut '/' (Go.cut '?' p.data).1).2.1).head? = some '/' := by
    cases hf : (Go.cut '/' (Go.cut '?' p.data).1).2.2 with
    | true => right; simp
    | false => left; simpa using Go.cut_snd_of_not_found '/' _ hf
  have hjoin : (Go.cut '/' (Go.cut '?' p.data).1).1 ++
      (if (Go.cut '/' (Go.cut '?' p.data).1).2.2 = true
        then '/' :: (Go.cut '/' (Go.cut '?' p.data).1).2.1
        else (Go.cut '/' (Go.cut '?' p.data).1).2.1) = (Go.cut '?' p.data).1 := by
    have happ := Go.cut_append '/' (Go.cut '?' p.data).1
    cases hf : (Go.cut '/' (Go.cut '?' p.data).1).2.2 with
    | true =>
      rw [hf] at happ
      simpa using happ
    | false =>
      rw [hf] at happ
      have hb := Go.cut_snd_of_not_found '/' _ hf
      simpa [hb] using happ
  have hsent :
      Go.URLString
        { Scheme := "http"
          Host := ⟨(Go.cut '/' (Go.cut '?' p.data).1).1⟩
          Path := ⟨if (Go.cut '/' (Go.cut '?' p.data).1).2.2 = true
                     then '/' :: (Go.cut '/' (Go.cut '?' p.data).1).2.1
                     else (Go.cut '/' (Go.cut '?' p.data).1).2.1⟩
          RawQuery := ⟨(Go.cut '?' p.data).2.1⟩
          ForceQuery := decide (p.data.getLast? = some '?' ∧ p.data.count '?' = 1) } =
      "http://" ++ p := by
    rw [Go.URLString_http_host _ _ _ _ hsegne hpath, hjoin, Go.query_append, http_prepended]
  generalize hnreq :
    ({ Method := req.Method
       URL := { Scheme := "http"
                Host := ⟨(Go.cut '/' (Go.cut '?' p.data).1).1⟩
                Path := ⟨if (Go.cut '/' (Go.cut '?' p.data).1).2.2 = true
                           then '/' :: (Go.cut '/' (Go.cut '?' p.data).1).2.1
                           else (Go.cut '/' (Go.cut '?' p.data).1).2.1⟩
                RawQuery := ⟨(Go.cut '?' p.data).2.1⟩
                ForceQuery := decide (p.data.getLast? = some '?' ∧ p.data.count '?' = 1) }
       Header := copyRequestHeader g req.Header []
       Body := req.Body } : OutRequest) = nreq at ho
  have hscheme : nreq.URL.Scheme = "http" := by rw [← hnreq]
  have hhost : nreq.URL.Host = firstSegment p := by rw [← hnreq]; rfl
  have hurl : Go.URLString nreq.URL = "http://" ++ p := by rw [← hnreq]; exact hsent
  have hsome := Client.Do_isSome g (goEnv send) nreq
  cases hd : Client.Do g (goEnv send) nreq with
  | none => simp [hd] at hsome
  | some res =>
    obtain ⟨e, calls⟩ := res
    have hfirst := Do_calls_head g (goEnv send) nreq e calls hd
    cases e with
    | error err =>
      refine ⟨_, nreq, handleCORS_of_failure g _ req _ nreq err calls ho hd, hfirst,
        hscheme, hhost, hurl, ?_⟩
      intro resp final calls' h
      rw [hd] at h
      cases h
    | ok rf =>
      obtain ⟨resp, final⟩ := rf
      refine ⟨_, nreq, handleCORS_of_response g _ req _ nreq resp final calls ho hd, ?_,
        hscheme, hhost, hurl, ?_⟩
      · rw [relay_calls]
        exact hfirst
      · intro resp' final' calls' h h100 h999
        rw [hd] at h
        cases h
        refine ⟨_, relay_of_valid g _ _ resp final calls
          (invalidWriteHeaderCode_eq_false _ h100 h999), ?_⟩
        show (relayHeader g (goEnv send) _ resp final).find "X-Request-Url" = _
        rw [relayHeader_find_requestURL]
        exact congrArg (fun s => some [s]) hstr

/-! ## The default scheme -/

/-- C7, as the code has it, for a guarded request with target `p`.  When
`url.Parse` rejects the target, the answer is status 500 with the error and
nothing is sent.  When it accepts the target, a target parsed without a
scheme gets the scheme `http` and a target parsed with a scheme is left as
it is; the outbound request is built from the string of that target and,
when `http.NewRequest` accepts the string, goes to the URL the string parses
to, is the first request sent, and a relayed response reports the string
as `X-Request-URL`; when it does not, the answer is status 500 and nothing
is sent.  On top of `net/url`, for a target written in plain characters
with a first segment that `url.Parse` accepts without a scheme (the method
being a token, as the server ensures): the first request sent has the
scheme `http`, the first segment of the target as its host and `http://`
followed by the target as its string, and a relayed response reports that
string as `X-Request-URL`. -/
theorem parsed_target_defaults_to_http (g : Globals) (env : Env) (req : Request)
    (p : String)
    (ht : target req = some p)
    (hg : req.Header.Get "Origin" ≠ "" ∨ req.Header.Get "X-Requested-With" ≠ "") :
    (∀ err, env.parse p = .error err →
      handleCORS g env req = some (.response (errorResult err []))) ∧
    (∀ u0, env.parse p = .ok u0 →
      ∃ u o, (u0.Scheme = "" → u = { u0 with Scheme := "http" }) ∧ (u0.Scheme ≠ "" → u = u0) ∧
        handleCORS g env req = some o ∧
        (∀ err, NewRequest env req.Method (env.urlString u) req.Body = .error err →
          o = .response (errorResult err [])) ∧
        (∀ nreq0, NewRequest env req.Method (env.urlString u) req.Body = .ok nreq0 →
          (∃ v, env.parse (env.urlString u) = .ok v ∧
            nreq0.URL = { v with Host := removeEmptyPort v.Host }) ∧
          o.calls.head? =
            some { nreq0 with Header := copyRequestHeader g req.Header nreq0.Header } ∧
          (∀ resp final calls,
            Client.Do g env { nreq0 with Header := copyRequestHeader g req.Header nreq0.Header }
              = some (.ok (resp, final), calls) →
            100 ≤ resp.StatusCode → resp.StatusCode ≤ 999 →
            ∃ r, o = .response r ∧
              r.Header.find "X-Request-Url" = some [env.urlString u]))) ∧
    (∀ send u0, Go.validMethod req.Method = true → plainTarget p = true →
      firstSegment p ≠ "" → Go.Parse p = .ok u0 → u0.Scheme = "" →
      ∃ o nreq, handleCORS g (goEnv send) req = some o ∧ o.calls.head? = some nreq ∧
        nreq.URL.Scheme = "http" ∧ nreq.URL.Host = firstSegment p ∧
        Go.URLString nreq.URL = "http://" ++ p ∧
        (∀ resp final calls,
          Client.Do g (goEnv send) nreq = some (.ok (resp, final), calls) →
          100 ≤ resp.StatusCode → resp.StatusCode ≤ 999 →
          ∃ r, o = .response r ∧
            r.Header.find "X-Request-Url" = some ["http://" ++ p])) := by
  refine ⟨?_, ?_, ?_⟩
  · intro err hp
    exact handleCORS_of_early g env req _ (outbound_of_rejected g env req p err ht hg hp)
  · intro u0 hp
    have ho := outbound_of_parsed g env req p u0 ht hg hp
    refine ⟨if u0.Scheme = "" then { u0 with Scheme := "http" } else u0, ?_⟩
    generalize hu : (if u0.Scheme = "" then { u0 with Scheme := "http" } else u0) = u at ho
    have h1 : u0.Scheme = "" → u = { u0 with Scheme := "http" } := by
      intro hs
      rw [← hu, if_pos hs]
    have h2 : u0.Scheme ≠ "" → u = u0 := by
      intro hs
      rw [← hu, if_neg hs]
    cases hnew : NewRequest env req.Method (env.urlString u) req.Body with
    | error err =>
      rw [hnew] at ho
      refine ⟨_, h1, h2, handleCORS_of_early g env req _ ho, ?_, ?_⟩
      · intro err' he
        cases he
        rfl
      · intro nreq0 he
        cases he
    | ok nreq0 =>
      rw [hnew] at ho
      simp only at ho
      obtain ⟨v, hv, hn0⟩ := NewRequest_ok env _ _ _ nreq0 hnew
      have hurl : nreq0.URL = { v with Host := removeEmptyPort v.Host } := by rw [hn0]
      generalize hnreq : ({ nreq0 with Header := copyRequestHeader g req.Header nreq0.Header }
        : OutRequest) = nreq at ho
      have hsome := Client.Do_isSome g env nreq
      cases hd : Client.Do g env nreq with
      | none => simp [hd] at hsome
      | some res =>
        obtain ⟨e, calls⟩ := res
        have hfirst := Do_calls_head g env nreq e calls hd
        cases e with
        | error err =>
          refine ⟨_, h1, h2, handleCORS_of_failure g env req u nreq err calls ho hd, ?_, ?_⟩
          · intro err' he
            cases he
          · intro nreq0' he
            cases he
            refine ⟨⟨v, hv, hurl⟩, ?_, ?_⟩
            · rw [hnreq]
              exact hfirst
            · intro resp final calls' h
              rw [hnreq, hd] at h
              cases h
        | ok rf =>
          obtain ⟨resp, final⟩ := rf
          refine ⟨_, h1, h2, handleCORS_of_response g env req u nreq resp final calls ho hd,
            ?_, ?_⟩
          · intro err' he
            cases he
          · intro nreq0' he
            cases he
            refine ⟨⟨v, hv, hurl⟩, ?_, ?_⟩
            · rw [hnreq, relay_calls]
              exact hfirst
            · intro resp' final' calls' h h100 h999
              rw [hnreq, hd] at h
              cases h
              exact ⟨_, relay_of_valid g env u resp final calls
                (invalidWriteHeaderCode_eq_false _ h100 h999),
                relayHeader_find_requestURL g env u resp final⟩
  · intro send u0 hm hplain hseg hp hs
    exact handleCORS_plain_target g send req p u0 ht hg hm hplain hseg hp hs

/-- C7 at `/example.com/path`: the request goes to `http://example.com/path`,
host `example.com`, and `X-Request-URL` says so. -/
theorem parsed_target_defaults_to_http_witness :
    target exampleRequest = some "example.com/path" ∧
    Go.Parse "example.com/path" = .ok { Path := "example.com/path" } ∧
    firstSegment "example.com/path" = "example.com" ∧
    ∃ r nreq, handleCORS packageInit (goEnv (always exampleUpstream)) exampleRequest
        = some (.response r) ∧
      r.calls.head? = some nreq ∧
      nreq.URL.Scheme = "http" ∧ nreq.URL.Host = "example.com" ∧
      Go.URLString nreq.URL = "http://example.com/path" ∧
      r.Header.find "X-Request-Url" = some ["http://example.com/path"] := by
  obtain ⟨o, nreq, ho, hcalls, hscheme, hhost, hurl, hx⟩ :=
    (parsed_target_defaults_to_http packageInit (goEnv (always exampleUpstream)) exampleRequest
      "example.com/path" (by rfl) (Or.inl (by decide))).2.2
      (always exampleUpstream) { Path := "example.com/path" }
      (by decide) (by decide) (by decide) (by rfl) (by rfl)
  obtain ⟨r0, hr0, hc0⟩ : ∃ r, handleCORS packageInit (goEnv (always exampleUpstream))
      exampleRequest = some (.response r) ∧ r.calls = [exampleOutbound] := ⟨_, rfl, by rfl⟩
  have ho' : o = .response r0 := by
    rw [hr0] at ho
    exact (Option.some.inj ho).symm
  subst ho'
  have hn : nreq = exampleOutbound := by
    have h : r0.calls.head? = some nreq := hcalls
    rw [hc0] at h
    exact (Option.some.inj h).symm
  subst hn
  obtain ⟨r, hr, hxr⟩ := hx exampleUpstream exampleOutbound [exampleOutbound] (by rfl)
    (by decide) (by decide)
  have hrr : r = r0 := (Outcome.response.inj hr).symm
  subst hrr
  exact ⟨by rfl, by rfl, by rfl, r, exampleOutbound, hr0, hcalls, hscheme, hhost, hurl, hxr⟩

/-- C7 is false as written: the target `1.2.3.4:80/x` has no scheme, and the
guarded request for it is answered with status 500 and nothing is sent;
`url.Parse` rejects a first segment that holds a colon.  The target
`example.com:8080/path` parses with the scheme `example.com`, so it does not
get `http` either.  And for the target `?x`, which has no first segment, the
outbound request is built from `http:?x` and has no host. -/
theorem target_with_port_is_not_given_http :
    Go.getScheme "1.2.3.4:80/x".data = .ok ([], "1.2.3.4:80/x".data) ∧
    handleCORS packageInit (goEnv (always exampleUpstream)) portRequest =
      some (.response
        { StatusCode := 500, Header := []
          Body := "Error: parse \"1.2.3.4:80/x\": first path segment in URL cannot contain colon"
          calls := [] }) ∧
    Go.Parse "example.com:8080/path" =
      .ok { Scheme := "example.com", OpaquePart := "8080/path" } ∧
    (∃ u nreq, outbound packageInit (goEnv (always exampleUpstream))
        { Method := "GET", Path := "/?x", Header := [("Origin", ["https://app.example"])] }
        = .ok (u, nreq) ∧
      Go.URLString u = "http:?x" ∧ nreq.URL.Host = "") :=
  ⟨by rfl, by rfl, by rfl, _, _, rfl, by rfl, by rfl⟩

end Corsproxy
